import Mathlib

/-!
Verification of the Type Reflection → Schema Compilation Engine of the
gin-docs repository (package `gindocs`), shallowly embedded in Lean 4.

Embedding conventions:
* Go strings are Lean `String`s; the Go standard-library helpers used by the
  source (`strings.Split`, `strings.Fields`, `strings.TrimSpace`,
  `strings.HasPrefix`, `strings.TrimPrefix`, `strings.Trim`,
  `strings.ToLower`, `strings.Contains`, `strconv.Atoi`,
  `strconv.ParseFloat`, `strconv.ParseInt`, `strconv.ParseBool`) are modelled
  below on the character lists underlying `String`.  All separators the
  source splits on are single characters, so splitting is modelled on one
  `Char`.  `TrimSpace`/`Fields` are modelled on ASCII whitespace, and
  `ToLower` on ASCII letters, which covers every string the source ever
  feeds them (struct tags).
* Go `int` is modelled as `Int` (the parsed bounds in the source are tiny,
  so 64-bit overflow in `strconv.Atoi` is irrelevant and not modelled);
  Go `float64` is modelled as `Rat`, with `strconv.ParseFloat` covering the
  plain decimal forms (`[+-]digits[.digits]`) that struct tags use.
* `reflect.Type` is modelled by `GoType` plus an environment of struct
  declarations (`Env`), a struct identity being its index; pointers, slices,
  arrays, maps and the special types (`time.Time`, `encoding.TextMarshaler`
  implementors) are explicit constructors.
* The mutating `*TypeRegistry` is threaded as explicit state, and the
  recursive schema compiler — whose Go recursion is bounded only by the
  seen-set — is given an explicit fuel parameter; `none` means the fuel ran
  out, so "terminates" is rendered as "some fuel suffices".
-/

namespace GinDocs

/-! ## Go standard-library string helpers -/

/-- ASCII whitespace, the character class `strings.TrimSpace` and
`strings.Fields` act on for the tag strings in this code base. -/
def isSpaceChar (c : Char) : Bool :=
  c = ' ' || c = Char.ofNat 9 || c = Char.ofNat 10 || c = Char.ofNat 13

/-- Model of `strings.TrimSpace`. -/
def trimSpaceS (s : String) : String :=
  ⟨((s.data.dropWhile isSpaceChar).reverse.dropWhile isSpaceChar).reverse⟩

/-- Model of `strings.Split` with a single-character separator (every
separator the source uses — `,`, `;`, `|` — is one character). -/
def goSplit (s : String) (sep : Char) : List String :=
  (s.data.splitOn sep).map fun cs => ⟨cs⟩

/-- Model of `strings.Fields`: split on whitespace runs, dropping empties. -/
def goFields (s : String) : List String :=
  ((s.data.splitOnP isSpaceChar).filter (· ≠ [])).map fun cs => ⟨cs⟩

/-- Model of `strings.HasPrefix`. -/
def strStarts (s pre : String) : Bool :=
  pre.data.isPrefixOf s.data

/-- Model of `strings.TrimPrefix`. -/
def trimPre (s pre : String) : String :=
  if strStarts s pre then ⟨s.data.drop pre.data.length⟩ else s

/-- Model of `strings.Trim` with a cutset given as a character list. -/
def trimChars (s : String) (cut : List Char) : String :=
  ⟨((s.data.dropWhile cut.contains).reverse.dropWhile cut.contains).reverse⟩

/-- Model of `strings.ToLower` (ASCII). -/
def lowerS (s : String) : String :=
  ⟨s.data.map Char.toLower⟩

/-- Model of `strings.Contains`: some suffix of `s` starts with `sub`. -/
def containsSub (s sub : String) : Bool :=
  (List.range (s.data.length + 1)).any fun i => sub.data.isPrefixOf (s.data.drop i)

/-- Accumulate the value of a decimal digit string; `none` on a non-digit. -/
def decValAux : Nat → List Char → Option Nat
  | acc, [] => some acc
  | acc, c :: cs =>
    if c.isDigit then decValAux (acc * 10 + (c.toNat - 48)) cs else none

/-- Model of `strconv.Atoi`: an optional sign followed by at least one
decimal digit; anything else fails. -/
def goAtoi (s : String) : Option Int :=
  match s.data with
  | [] => none
  | '+' :: cs =>
    match cs with
    | [] => none
    | _ => (decValAux 0 cs).map Int.ofNat
  | '-' :: cs =>
    match cs with
    | [] => none
    | _ => (decValAux 0 cs).map fun n => -(n : Int)
  | cs => (decValAux 0 cs).map Int.ofNat

/-- Value of a digit list (used after `decValAux` has validated it). -/
def natOfDigits (cs : List Char) : Nat :=
  cs.foldl (fun a c => a * 10 + (c.toNat - 48)) 0

/-- Model of `strconv.ParseFloat` restricted to the plain decimal forms
`[+-]digits[.digits]` that occur in struct tags. -/
def goParseFloat (s : String) : Option Rat :=
  let body : List Char → Option Rat := fun cs =>
    match cs.splitOn '.' with
    | [a] => if a ≠ [] && a.all Char.isDigit then some (natOfDigits a : Rat) else none
    | [a, b] =>
      if (a ≠ [] || b ≠ []) && a.all Char.isDigit && b.all Char.isDigit then
        some ((natOfDigits a : Rat) + (natOfDigits b : Rat) / ((10 : Rat) ^ b.length))
      else none
    | _ => none
  match s.data with
  | [] => none
  | '+' :: cs => body cs
  | '-' :: cs => (body cs).map fun q => -q
  | cs => body cs

/-- Model of `strconv.ParseBool`. -/
def goParseBool (s : String) : Option Bool :=
  if s = "1" || s = "t" || s = "T" || s = "TRUE" || s = "true" || s = "True" then some true
  else if s = "0" || s = "f" || s = "F" || s = "FALSE" || s = "false" || s = "False" then some false
  else none

/-! ## TagInfo and the tag parsers (source: tags parsing file, `TagInfo`,
`parseJSONTag`, `parseBindingTag`, `parseGORMTag`, `parseDocsTag`,
`mergeTags`) -/

/-- Model of the Go struct `TagInfo`; field names are the source's names in
lower camel case. -/
structure TagInfo where
  jsonName : String := ""
  omitEmpty : Bool := false
  jsonSkip : Bool := false
  required : Bool := false
  minLength : Option Int := none
  maxLength : Option Int := none
  minimum : Option Rat := none
  maximum : Option Rat := none
  enum : List String := []
  format : String := ""
  pattern : String := ""
  bindingSkip : Bool := false
  primaryKey : Bool := false
  autoCreateTime : Bool := false
  autoUpdateTime : Bool := false
  gormSize : Option Int := none
  gormDefault : Option String := none
  uniqueIndex : Bool := false
  gormSkip : Bool := false
  gormType : String := ""
  description : String := ""
  exampleStr : String := ""
  deprecated : Bool := false
  hidden : Bool := false
  docsFormat : String := ""
  docsEnum : List String := []
  deriving Repr, DecidableEq

/-- Model of `parseJSONTag` (returns name, omitEmpty, skip). -/
def parseJSONTag (tag : String) : String × Bool × Bool :=
  if tag = "" then ("", false, false)
  else if tag = "-" then ("", false, true)
  else
    let parts := goSplit tag ','
    (parts.headD "", (parts.drop 1).any (· = "omitempty"), false)

/-- One iteration of the clause loop in `parseBindingTag`; the branch order
is the source's `switch` order. -/
def bindingClause (info : TagInfo) (part0 : String) : TagInfo :=
  let part := trimSpaceS part0
  if part = "required" then { info with required := true }
  else if part = "email" then { info with format := "email" }
  else if part = "url" || part = "uri" || part = "http_url" then { info with format := "uri" }
  else if part = "uuid" || part = "uuid3" || part = "uuid4" || part = "uuid5" then
    { info with format := "uuid" }
  else if part = "ipv4" then { info with format := "ipv4" }
  else if part = "ipv6" then { info with format := "ipv6" }
  else if part = "ip" then { info with format := "ipv4" }
  else if part = "datetime" then { info with format := "date-time" }
  else if strStarts part "oneof=" then
    { info with enum := goFields (trimPre part "oneof=") }
  else if strStarts part "min=" then
    match goAtoi (trimPre part "min=") with
    | some v => { info with minLength := some v, minimum := some (v : Rat) }
    | none => info
  else if strStarts part "max=" then
    match goAtoi (trimPre part "max=") with
    | some v => { info with maxLength := some v, maximum := some (v : Rat) }
    | none => info
  else if strStarts part "gte=" then
    match goParseFloat (trimPre part "gte=") with
    | some v => { info with minimum := some v }
    | none => info
  else if strStarts part "gt=" then
    match goParseFloat (trimPre part "gt=") with
    | some v => { info with minimum := some v }
    | none => info
  else if strStarts part "lte=" then
    match goParseFloat (trimPre part "lte=") with
    | some v => { info with maximum := some v }
    | none => info
  else if strStarts part "lt=" then
    match goParseFloat (trimPre part "lt=") with
    | some v => { info with maximum := some v }
    | none => info
  else if strStarts part "len=" then
    match goAtoi (trimPre part "len=") with
    | some v => { info with minLength := some v, maxLength := some v }
    | none => info
  else info

/-- Model of `parseBindingTag`: fold the clause step over the
comma-separated parts. -/
def parseBindingTag (tag : String) : TagInfo :=
  if tag = "" || tag = "-" then
    if tag = "-" then { bindingSkip := true } else {}
  else (goSplit tag ',').foldl bindingClause {}

/-- One iteration of the clause loop in `parseGORMTag`. -/
def gormClause (info : TagInfo) (part0 : String) : TagInfo :=
  let part := trimSpaceS part0
  let lower := lowerS part
  if lower = "primarykey" || lower = "primary_key" then { info with primaryKey := true }
  else if lower = "autocreatetime" then { info with autoCreateTime := true }
  else if lower = "autoupdatetime" then { info with autoUpdateTime := true }
  else if lower = "uniqueindex" || strStarts lower "uniqueindex:" then
    { info with uniqueIndex := true }
  else if strStarts lower "size:" then
    match goAtoi (trimPre lower "size:") with
    | some v => { info with gormSize := some v }
    | none => info
  else if strStarts lower "default:" then
    let val := trimPre part "default:"
    let val := trimPre val "Default:"
    let val := trimChars val [Char.ofNat 39, Char.ofNat 34]
    { info with gormDefault := some val }
  else if strStarts lower "type:" then
    { info with gormType := trimPre part "type:" }
  else info

/-- Model of `parseGORMTag`: fold the clause step over the
semicolon-separated parts. -/
def parseGORMTag (tag : String) : TagInfo :=
  if tag = "" then {}
  else if tag = "-" || tag = "-:all" then { gormSkip := true }
  else (goSplit tag ';').foldl gormClause {}

/-- One iteration of the clause loop in `parseDocsTag`. -/
def docsClause (info : TagInfo) (part0 : String) : TagInfo :=
  let part := trimSpaceS part0
  if part = "deprecated" then { info with deprecated := true }
  else if part = "hidden" then { info with hidden := true }
  else if strStarts part "description:" then
    { info with description := trimPre part "description:" }
  else if strStarts part "example:" then
    { info with exampleStr := trimPre part "example:" }
  else if strStarts part "format:" then
    { info with docsFormat := trimPre part "format:" }
  else if strStarts part "enum:" then
    { info with docsEnum := goSplit (trimPre part "enum:") '|' }
  else info

/-- Model of `parseDocsTag`. -/
def parseDocsTag (tag : String) : TagInfo :=
  if tag = "" then {}
  else (goSplit tag ',').foldl docsClause {}

/-- Model of `mergeTags`: combine the four per-namespace parses, with the
docs namespace overriding format and enum last. -/
def mergeTags (jsonTag bindingTag gormTag docsTag : String) : TagInfo :=
  let j := parseJSONTag jsonTag
  let binding := parseBindingTag bindingTag
  let gorm := parseGORMTag gormTag
  let docs := parseDocsTag docsTag
  let info : TagInfo :=
    { jsonName := j.1, omitEmpty := j.2.1, jsonSkip := j.2.2
      required := binding.required
      minLength := binding.minLength, maxLength := binding.maxLength
      minimum := binding.minimum, maximum := binding.maximum
      enum := binding.enum, format := binding.format
      pattern := binding.pattern, bindingSkip := binding.bindingSkip
      primaryKey := gorm.primaryKey
      autoCreateTime := gorm.autoCreateTime, autoUpdateTime := gorm.autoUpdateTime
      gormSize := gorm.gormSize, gormDefault := gorm.gormDefault
      uniqueIndex := gorm.uniqueIndex, gormSkip := gorm.gormSkip
      gormType := gorm.gormType
      description := docs.description, exampleStr := docs.exampleStr
      deprecated := docs.deprecated, hidden := docs.hidden
      docsFormat := docs.docsFormat, docsEnum := docs.docsEnum }
  let info := if info.docsFormat ≠ "" then { info with format := info.docsFormat } else info
  let info := if info.docsEnum ≠ [] then { info with enum := info.docsEnum } else info
  info

/-! ## Values, schema objects (source: `openapi_types.go` `SchemaObject`) -/

/-- Model of Go `interface{}` values that flow into `Default` / `Example`
(outputs of `strconv.ParseInt` / `ParseFloat` / `ParseBool`, else the raw
string). -/
inductive GoVal where
  | vInt (n : Int)
  | vFloat (q : Rat)
  | vBool (b : Bool)
  | vStr (s : String)
  deriving Repr, DecidableEq

/-- Fields of `SchemaObject` touched by the compiler, parameterised by the
schema type itself so that `SchemaObject` below can tie the knot.  Fields of
the Go struct never read or written by the embedded code (`Title`,
`WriteOnly`, `Nullable`, exclusive bounds, `MultipleOf`, `Pattern`,
`MinItems`, `MaxItems`, `OneOf`, `AnyOf`) are omitted; `Default`/`Example`
are `defaultVal`/`exampleVal`. -/
structure SchemaCore (S : Type) where
  ref : String := ""
  type : String := ""
  format : String := ""
  description : String := ""
  defaultVal : Option GoVal := none
  exampleVal : Option GoVal := none
  deprecated : Bool := false
  readOnly : Bool := false
  minimum : Option Rat := none
  maximum : Option Rat := none
  minLength : Option Int := none
  maxLength : Option Int := none
  items : Option S := none
  properties : List (String × S) := []
  required : List String := []
  additionalProperties : Option S := none
  enum : List String := []
  allOf : List S := []
  deriving Repr

/-- Model of `SchemaObject` (recursive, hence an inductive wrapping its
core record). -/
inductive SchemaObject where
  | mk (core : SchemaCore SchemaObject)

/-- Projection to the core record. -/
def SchemaObject.core : SchemaObject → SchemaCore SchemaObject
  | .mk c => c

/-! ## Go types and the struct environment (model of `reflect.Type`) -/

/-- Structural model of `reflect.Type`.  A struct identity is an index into
an environment `Env` of struct declarations, which lets type graphs be
cyclic.  `timeT` is the named struct `time.Time` and `textMarshalerT`
stands for any non-struct-modelled type implementing
`encoding.TextMarshaler`; both are handled by `specialTypeSchema` before
the kind switch, exactly as in the source.  `otherT` covers the kinds that
fall into the source's `default` branch (chan, func, …). -/
inductive GoType where
  | boolT
  | intT | int8T | int16T | int32T | int64T
  | uintT | uint8T | uint16T | uint32T | uint64T
  | float32T | float64T
  | stringT
  | slice (elem : GoType)
  | arr (elem : GoType)
  | mapT (val : GoType)
  | structT (id : Nat)
  | interfaceT
  | timeT
  | textMarshalerT
  | ptr (t : GoType)
  | otherT
  deriving Repr, DecidableEq

/-- Model of `reflect.StructField`: name, exportedness, anonymity
(embedding), type, and the four raw tag strings. -/
structure FieldDef where
  name : String
  exported : Bool := true
  anonymous : Bool := false
  ftype : GoType
  jsonTag : String := ""
  bindingTag : String := ""
  gormTag : String := ""
  docsTag : String := ""
  deriving Repr, DecidableEq

/-- A struct declaration: bare type name (`reflect.Type.Name()`, empty for
anonymous structs), short package name (for `Type.String()`), fields. -/
structure StructDef where
  name : String
  pkg : String := ""
  fields : List FieldDef := []
  deriving Repr, DecidableEq

/-- The environment of struct declarations; a struct identity is an index. -/
abbrev Env := List StructDef

/-- Look up a struct declaration (total, defaulting to an empty anonymous
struct; theorems about whole-graph behaviour assume closedness instead). -/
def defOf (env : Env) (id : Nat) : StructDef :=
  List.getD env id ⟨"", "", []⟩

/-- Strip pointer indirections, as the `for t.Kind() == reflect.Ptr` loops
do throughout the source. -/
def stripPtr : GoType → GoType
  | .ptr t => stripPtr t
  | t => t

/-- Model of `reflect.Type.Name()`: primitive kinds have their spelling,
composite unnamed kinds have `""`, a struct has its declared name. -/
def goTypeName (env : Env) : GoType → String
  | .boolT => "bool"
  | .intT => "int" | .int8T => "int8" | .int16T => "int16"
  | .int32T => "int32" | .int64T => "int64"
  | .uintT => "uint" | .uint8T => "uint8" | .uint16T => "uint16"
  | .uint32T => "uint32" | .uint64T => "uint64"
  | .float32T => "float32" | .float64T => "float64"
  | .stringT => "string"
  | .structT id => (defOf env id).name
  | .timeT => "Time"
  | _ => ""

/-- Model of `reflect.Type.String()`; the source consumes it only through
equality with `"gorm.DeletedAt"`, so composite spellings are approximate
(array lengths and map key types are not tracked). -/
def goTypeString (env : Env) : GoType → String
  | .structT id =>
    let d := defOf env id
    if d.pkg = "" then d.name else d.pkg ++ "." ++ d.name
  | .ptr t => "*" ++ goTypeString env t
  | .slice e => "[]" ++ goTypeString env e
  | .arr e => "[]" ++ goTypeString env e
  | .mapT v => "map[]" ++ goTypeString env v
  | .timeT => "time.Time"
  | .interfaceT => "interface {}"
  | t => goTypeName env t

/-- Model of `schemaName`: dereference pointers, take the bare type name,
fall back to `"AnonymousStruct"` when it is empty.  Note that the defining
package is not consulted. -/
def schemaName (env : Env) (t0 : GoType) : String :=
  let t := stripPtr t0
  let n := goTypeName env t
  if n = "" then "AnonymousStruct" else n

/-- Model of `specialTypeSchema`: `time.Time` becomes a date-time string,
`TextMarshaler` implementors become plain strings. -/
def specialTypeSchema : GoType → Option SchemaObject
  | .timeT => some (.mk { type := "string", format := "date-time" })
  | .textMarshalerT => some (.mk { type := "string" })
  | _ => none

/-! ## The type registry (source: registry file, `TypeRegistry`) -/

/-- Replace the binding of `n` if present, else append — the effect of a Go
map assignment on an association list. -/
def upsert {β : Type} (l : List (String × β)) (n : String) (v : β) : List (String × β) :=
  match l with
  | [] => [(n, v)]
  | (k, w) :: t => if k = n then (n, v) :: t else (k, w) :: upsert t n v

/-- Model of `TypeRegistry` (the mutex is concurrency plumbing with no
sequential content and is not modelled): registered schemas by name, and
the seen set of in-progress struct identities. -/
structure TypeRegistry where
  schemas : List (String × SchemaObject) := []
  seen : List Nat := []

/-- Model of `newTypeRegistry`. -/
def newTypeRegistry : TypeRegistry := {}

/-- Model of `TypeRegistry.Register`. -/
def TypeRegistry.register (r : TypeRegistry) (n : String) (s : SchemaObject) : TypeRegistry :=
  { r with schemas := upsert r.schemas n s }

/-- Model of `TypeRegistry.Get`. -/
def TypeRegistry.get (r : TypeRegistry) (n : String) : Option SchemaObject :=
  r.schemas.lookup n

/-- Model of `TypeRegistry.Has`. -/
def TypeRegistry.has (r : TypeRegistry) (n : String) : Bool :=
  (r.schemas.lookup n).isSome

/-- Model of `TypeRegistry.markSeen` (map-style set insert). -/
def TypeRegistry.markSeen (r : TypeRegistry) (id : Nat) : TypeRegistry :=
  { r with seen := if r.seen.contains id then r.seen else id :: r.seen }

/-- Model of `TypeRegistry.unmarkSeen` (map delete). -/
def TypeRegistry.unmarkSeen (r : TypeRegistry) (id : Nat) : TypeRegistry :=
  { r with seen := r.seen.filter (· ≠ id) }

/-- Model of `TypeRegistry.isSeen`. -/
def TypeRegistry.isSeen (r : TypeRegistry) (id : Nat) : Bool :=
  r.seen.contains id

/-- Model of `RefPath`. -/
def RefPath (n : String) : String :=
  "#/components/schemas/" ++ n

/-- Model of `SchemaRef`. -/
def SchemaRef (n : String) : SchemaObject :=
  .mk { ref := RefPath n }

/-! ## Constraint application (source: `schemas.go` `applyTagConstraints`,
`parseDefaultValue`, `parseExampleValue`) -/

/-- Model of `parseDefaultValue`. -/
def parseDefaultValue (val schemaType : String) : GoVal :=
  if schemaType = "integer" then
    match goAtoi val with
    | some v => .vInt v
    | none => .vStr val
  else if schemaType = "number" then
    match goParseFloat val with
    | some v => .vFloat v
    | none => .vStr val
  else if schemaType = "boolean" then
    match goParseBool val with
    | some v => .vBool v
    | none => .vStr val
  else .vStr val

/-- Model of `parseExampleValue` (textually identical to
`parseDefaultValue` in the source). -/
def parseExampleValue (val schemaType : String) : GoVal :=
  if schemaType = "integer" then
    match goAtoi val with
    | some v => .vInt v
    | none => .vStr val
  else if schemaType = "number" then
    match goParseFloat val with
    | some v => .vFloat v
    | none => .vStr val
  else if schemaType = "boolean" then
    match goParseBool val with
    | some v => .vBool v
    | none => .vStr val
  else .vStr val

/-- Description stanza of `applyTagConstraints`. -/
def applyDescriptionTag (tags : TagInfo) (c : SchemaCore SchemaObject) : SchemaCore SchemaObject :=
  if tags.description ≠ "" then { c with description := tags.description } else c

/-- Unique-index stanza of `applyTagConstraints` (appends to the
description). -/
def applyUniqueIndexTag (tags : TagInfo) (c : SchemaCore SchemaObject) : SchemaCore SchemaObject :=
  if tags.uniqueIndex then
    { c with description :=
        if c.description ≠ "" then c.description ++ ". Must be unique" else "Must be unique" }
  else c

/-- Format stanza of `applyTagConstraints`. -/
def applyFormatTag (tags : TagInfo) (c : SchemaCore SchemaObject) : SchemaCore SchemaObject :=
  if tags.format ≠ "" then { c with format := tags.format } else c

/-- Enum stanza of `applyTagConstraints` (appends the tag's values). -/
def applyEnumTag (tags : TagInfo) (c : SchemaCore SchemaObject) : SchemaCore SchemaObject :=
  if tags.enum ≠ [] then { c with enum := c.enum ++ tags.enum } else c

/-- Numeric stanza of `applyTagConstraints`: bounds apply only to
number/integer kinds. -/
def applyNumericConstraints (tags : TagInfo) (c : SchemaCore SchemaObject) :
    SchemaCore SchemaObject :=
  if c.type = "integer" || c.type = "number" then
    { c with minimum := tags.minimum, maximum := tags.maximum }
  else c

/-- String stanza of `applyTagConstraints`: length bounds apply only to
string kinds, and the GORM size fills `maxLength` only when the validation
namespace left it unset. -/
def applyStringConstraints (tags : TagInfo) (c : SchemaCore SchemaObject) :
    SchemaCore SchemaObject :=
  if c.type = "string" then
    let c := { c with minLength := tags.minLength, maxLength := tags.maxLength }
    if tags.gormSize.isSome && c.maxLength.isNone then { c with maxLength := tags.gormSize }
    else c
  else c

/-- Default-value stanza of `applyTagConstraints`. -/
def applyDefaultTag (tags : TagInfo) (c : SchemaCore SchemaObject) : SchemaCore SchemaObject :=
  match tags.gormDefault with
  | some d => { c with defaultVal := some (parseDefaultValue d c.type) }
  | none => c

/-- Read-only stanza of `applyTagConstraints` (primary keys and
auto-timestamps). -/
def applyReadOnlyTag (tags : TagInfo) (c : SchemaCore SchemaObject) : SchemaCore SchemaObject :=
  if tags.primaryKey || tags.autoCreateTime || tags.autoUpdateTime then
    { c with readOnly := true }
  else c

/-- Deprecated stanza of `applyTagConstraints`. -/
def applyDeprecatedTag (tags : TagInfo) (c : SchemaCore SchemaObject) : SchemaCore SchemaObject :=
  if tags.deprecated then { c with deprecated := true } else c

/-- Example stanza of `applyTagConstraints`. -/
def applyExampleTag (tags : TagInfo) (c : SchemaCore SchemaObject) : SchemaCore SchemaObject :=
  if tags.exampleStr ≠ "" then
    { c with exampleVal := some (parseExampleValue tags.exampleStr c.type) }
  else c

/-- Model of `applyTagConstraints`: the source's in-place mutations in
order, one named step per commented stanza of the Go function. -/
def applyTagConstraints (schema : SchemaObject) (tags : TagInfo) : SchemaObject :=
  .mk (applyExampleTag tags (applyDeprecatedTag tags (applyReadOnlyTag tags
    (applyDefaultTag tags (applyStringConstraints tags (applyNumericConstraints tags
      (applyEnumTag tags (applyFormatTag tags (applyUniqueIndexTag tags
        (applyDescriptionTag tags schema.core))))))))))

/-! ## The schema compiler (source: `schemas.go` `typeToSchema`,
`structToSchema`, `processStructFields`, `fieldToSchema`) -/

/-- Model of `fieldToSchema`, parameterised by the type compiler `c` (the
recursive `typeToSchema` call at the current fuel). -/
def fieldToSchemaWith (c : GoType → TypeRegistry → Option (SchemaObject × TypeRegistry))
    (t : GoType) (tags : TagInfo) (r : TypeRegistry) :
    Option (SchemaObject × TypeRegistry) :=
  match c t r with
  | none => none
  | some (base, r1) =>
    if base.core.ref ≠ "" then
      if tags.description ≠ "" || tags.deprecated then
        some (.mk { allOf := [base], description := tags.description,
                    deprecated := tags.deprecated }, r1)
      else some (base, r1)
    else some (applyTagConstraints base tags, r1)

/-- The embedded-struct test of the field loops: anonymous, and a struct
after dereferencing, and not a special type.  (`time.Time` has struct kind
in Go but a non-nil special schema, so it falls through to normal
processing; in the model it is its own constructor, with the same effect.) -/
def embeddedTarget (fd : FieldDef) : Option Nat :=
  if fd.anonymous then
    match stripPtr fd.ftype with
    | .structT id => if (specialTypeSchema (.structT id)).isNone then some id else none
    | _ => none
  else none

/-- Model of `processStructFields`, parameterised by the type compiler and
supplied with fuel because the recursion into embedded structs is bounded
by nothing else.  Accumulates the properties map and required list that the
source mutates into the schema. -/
def processStructFields (env : Env)
    (c : GoType → TypeRegistry → Option (SchemaObject × TypeRegistry)) :
    Nat → List FieldDef → List (String × SchemaObject) → List String → TypeRegistry →
    Option (List (String × SchemaObject) × List String × TypeRegistry)
  | _, [], props, req, r => some (props, req, r)
  | 0, _ :: _, _, _, _ => none
  | g + 1, fd :: rest, props, req, r =>
    if fd.exported = false then processStructFields env c g rest props req r
    else
      match embeddedTarget fd with
      | some eid =>
        match processStructFields env c g (defOf env eid).fields props req r with
        | none => none
        | some (p1, q1, r1) => processStructFields env c g rest p1 q1 r1
      | none =>
        let tags := mergeTags fd.jsonTag fd.bindingTag fd.gormTag fd.docsTag
        if tags.jsonSkip || tags.gormSkip || tags.hidden then
          processStructFields env c g rest props req r
        else
          let propName := if tags.jsonName = "" then fd.name else tags.jsonName
          match fieldToSchemaWith c fd.ftype tags r with
          | none => none
          | some (fs, r1) =>
            processStructFields env c g rest (upsert props propName fs)
              (if tags.required then req ++ [propName] else req) r1

/-- Body of `structToSchema` on a struct identity, parameterised by the
type compiler used for the fields. -/
def structToSchemaAux (env : Env)
    (c : GoType → TypeRegistry → Option (SchemaObject × TypeRegistry))
    (g : Nat) (id : Nat) (r : TypeRegistry) : Option (SchemaObject × TypeRegistry) :=
  let name := schemaName env (.structT id)
  if r.has name then some (SchemaRef name, r)
  else if r.isSeen id then some (SchemaRef name, r)
  else
    match processStructFields env c g (defOf env id).fields [] [] (r.markSeen id) with
    | none => none
    | some (props, req, r2) =>
      let schema : SchemaObject := .mk { type := "object", properties := props, required := req }
      some (SchemaRef name, (r2.register name schema).unmarkSeen id)

/-- Model of `typeToSchema` with fuel (`none` = fuel exhausted, which is
how the Go function's unbounded recursion is rendered). -/
def typeToSchema (env : Env) : Nat → GoType → TypeRegistry → Option (SchemaObject × TypeRegistry)
  | 0, _, _ => none
  | f + 1, t0, r =>
    let t := stripPtr t0
    match specialTypeSchema t with
    | some s => some (s, r)
    | none =>
      match t with
      | .boolT => some (.mk { type := "boolean" }, r)
      | .intT | .int8T | .int16T | .int32T
      | .uintT | .uint8T | .uint16T | .uint32T =>
        some (.mk { type := "integer", format := "int32" }, r)
      | .int64T | .uint64T => some (.mk { type := "integer", format := "int64" }, r)
      | .float32T => some (.mk { type := "number", format := "float" }, r)
      | .float64T => some (.mk { type := "number", format := "double" }, r)
      | .stringT => some (.mk { type := "string" }, r)
      | .slice e | .arr e =>
        match typeToSchema env f e r with
        | none => none
        | some (es, r1) =>
          if e = .uint8T then some (.mk { type := "string", format := "byte" }, r1)
          else some (.mk { type := "array", items := some es }, r1)
      | .mapT v =>
        match typeToSchema env f v r with
        | none => none
        | some (vs, r1) => some (.mk { type := "object", additionalProperties := some vs }, r1)
      | .structT id => structToSchemaAux env (typeToSchema env f) f id r
      | .interfaceT => some (.mk {}, r)
      | _ => some (.mk { type := "string" }, r)

/-- Model of `structToSchema` as a named entry point (the source function,
called from `typeToSchema`'s struct case with the registry shared). -/
def structToSchema (env : Env) (fuel : Nat) (id : Nat) (r : TypeRegistry) :
    Option (SchemaObject × TypeRegistry) :=
  structToSchemaAux env (typeToSchema env fuel) fuel id r

/-! ## Variant generation (source: `gorm.go`) -/

/-- Model of `shouldSkipForCreate`. -/
def shouldSkipForCreate (env : Env) (fd : FieldDef) : Bool :=
  let gormTag := lowerS fd.gormTag
  if containsSub gormTag "primarykey" || containsSub gormTag "primary_key" then true
  else if containsSub gormTag "autocreatetime" || containsSub gormTag "autoupdatetime" then true
  else if fd.name = "ID" || fd.name = "CreatedAt" || fd.name = "UpdatedAt"
      || fd.name = "DeletedAt" then true
  else if goTypeString env fd.ftype = "gorm.DeletedAt" then true
  else if fd.ftype = .timeT || fd.ftype = .ptr .timeT then
    let lower := lowerS fd.name
    containsSub lower "created" || containsSub lower "updated" || containsSub lower "deleted"
  else false

/-- Model of `processCreateFields`; the field loop of `generateCreateVariant`
is textually the same loop, so the top-level walk reuses this. -/
def processCreateFields (env : Env)
    (c : GoType → TypeRegistry → Option (SchemaObject × TypeRegistry)) :
    Nat → List FieldDef → List (String × SchemaObject) → List String → TypeRegistry →
    Option (List (String × SchemaObject) × List String × TypeRegistry)
  | _, [], props, req, r => some (props, req, r)
  | 0, _ :: _, _, _, _ => none
  | g + 1, fd :: rest, props, req, r =>
    if fd.exported = false then processCreateFields env c g rest props req r
    else
      match embeddedTarget fd with
      | some eid =>
        match processCreateFields env c g (defOf env eid).fields props req r with
        | none => none
        | some (p1, q1, r1) => processCreateFields env c g rest p1 q1 r1
      | none =>
        if shouldSkipForCreate env fd then processCreateFields env c g rest props req r
        else
          let tags := mergeTags fd.jsonTag fd.bindingTag fd.gormTag fd.docsTag
          if tags.jsonSkip || tags.gormSkip || tags.hidden then
            processCreateFields env c g rest props req r
          else
            let propName := if tags.jsonName = "" then fd.name else tags.jsonName
            match fieldToSchemaWith c fd.ftype tags r with
            | none => none
            | some (fs, r1) =>
              processCreateFields env c g rest (upsert props propName fs)
                (if tags.required then req ++ [propName] else req) r1

/-- Model of `generateCreateVariant`. -/
def generateCreateVariant (env : Env) (fuel : Nat) (id : Nat) (r : TypeRegistry) :
    Option (SchemaObject × TypeRegistry) :=
  match processCreateFields env (typeToSchema env fuel) fuel (defOf env id).fields [] [] r with
  | none => none
  | some (props, req, r1) =>
    some (.mk { type := "object", properties := props, required := req }, r1)

/-- Model of `processUpdateFields`; like the create walk but with no
required accumulation and with `ReadOnly` cleared on non-reference field
schemas. -/
def processUpdateFields (env : Env)
    (c : GoType → TypeRegistry → Option (SchemaObject × TypeRegistry)) :
    Nat → List FieldDef → List (String × SchemaObject) → TypeRegistry →
    Option (List (String × SchemaObject) × TypeRegistry)
  | _, [], props, r => some (props, r)
  | 0, _ :: _, _, _ => none
  | g + 1, fd :: rest, props, r =>
    if fd.exported = false then processUpdateFields env c g rest props r
    else
      match embeddedTarget fd with
      | some eid =>
        match processUpdateFields env c g (defOf env eid).fields props r with
        | none => none
        | some (p1, r1) => processUpdateFields env c g rest p1 r1
      | none =>
        if shouldSkipForCreate env fd then processUpdateFields env c g rest props r
        else
          let tags := mergeTags fd.jsonTag fd.bindingTag fd.gormTag fd.docsTag
          if tags.jsonSkip || tags.gormSkip || tags.hidden then
            processUpdateFields env c g rest props r
          else
            let propName := if tags.jsonName = "" then fd.name else tags.jsonName
            match fieldToSchemaWith c fd.ftype tags r with
            | none => none
            | some (fs, r1) =>
              let fs := if fs.core.ref = "" then SchemaObject.mk { fs.core with readOnly := false } else fs
              processUpdateFields env c g rest (upsert props propName fs) r1

/-- Model of `generateUpdateVariant` (its required list is never populated). -/
def generateUpdateVariant (env : Env) (fuel : Nat) (id : Nat) (r : TypeRegistry) :
    Option (SchemaObject × TypeRegistry) :=
  match processUpdateFields env (typeToSchema env fuel) fuel (defOf env id).fields [] r with
  | none => none
  | some (props, r1) =>
    some (.mk { type := "object", properties := props, required := [] }, r1)

/-! ## String helper lemmas -/

theorem dataAppend (s t : String) : (s ++ t).data = s.data ++ t.data := by
  cases s; cases t; rfl

theorem listIsPrefixOf_self_append (l m : List Char) : l.isPrefixOf (l ++ m) = true := by
  induction l with
  | nil => simp [List.isPrefixOf]
  | cons c cs ih => simp [List.isPrefixOf, ih]

theorem strStarts_append_self (pre v : String) : strStarts (pre ++ v) pre = true := by
  simp [strStarts, dataAppend, listIsPrefixOf_self_append]

theorem trimPre_append_self (pre v : String) : trimPre (pre ++ v) pre = v := by
  cases v with
  | mk dataV =>
    simp [trimPre, strStarts_append_self, dataAppend, List.drop_left]

theorem strStarts_append_false (pre v lit : String)
    (h1 : ¬ lit.data <+: pre.data) (h2 : ¬ pre.data <+: lit.data) :
    strStarts (pre ++ v) lit = false := by
  have hnp : ¬ lit.data <+: (pre.data ++ v.data) := fun hp =>
    (List.prefix_or_prefix_of_prefix hp (List.prefix_append pre.data v.data)).elim h1 h2
  simp only [strStarts, dataAppend]
  rw [Bool.eq_false_iff]
  intro hc
  exact hnp (List.isPrefixOf_iff_prefix.mp hc)

theorem append_ne_lit (pre v lit : String) (h : ¬ pre.data <+: lit.data) :
    pre ++ v ≠ lit := by
  intro he
  apply h
  rw [← he, dataAppend]
  exact List.prefix_append _ _

/-! ## Stanza lemmas for `applyTagConstraints` -/

theorem applyDescriptionTag_type (t : TagInfo) (c : SchemaCore SchemaObject) :
    (applyDescriptionTag t c).type = c.type := by
  simp only [applyDescriptionTag]; split <;> rfl

theorem applyUniqueIndexTag_type (t : TagInfo) (c : SchemaCore SchemaObject) :
    (applyUniqueIndexTag t c).type = c.type := by
  simp only [applyUniqueIndexTag]; split <;> rfl

theorem applyFormatTag_type (t : TagInfo) (c : SchemaCore SchemaObject) :
    (applyFormatTag t c).type = c.type := by
  simp only [applyFormatTag]; split <;> rfl

theorem applyEnumTag_type (t : TagInfo) (c : SchemaCore SchemaObject) :
    (applyEnumTag t c).type = c.type := by
  simp only [applyEnumTag]; split <;> rfl

theorem applyNumericConstraints_type (t : TagInfo) (c : SchemaCore SchemaObject) :
    (applyNumericConstraints t c).type = c.type := by
  simp only [applyNumericConstraints]; split <;> rfl

theorem applyNumericConstraints_maxLength (t : TagInfo) (c : SchemaCore SchemaObject) :
    (applyNumericConstraints t c).maxLength = c.maxLength := by
  simp only [applyNumericConstraints]; split <;> rfl

theorem applyDefaultTag_maxLength (t : TagInfo) (c : SchemaCore SchemaObject) :
    (applyDefaultTag t c).maxLength = c.maxLength := by
  cases h : t.gormDefault <;> simp [applyDefaultTag, h]

theorem applyReadOnlyTag_maxLength (t : TagInfo) (c : SchemaCore SchemaObject) :
    (applyReadOnlyTag t c).maxLength = c.maxLength := by
  simp only [applyReadOnlyTag]; split <;> rfl

theorem applyDeprecatedTag_maxLength (t : TagInfo) (c : SchemaCore SchemaObject) :
    (applyDeprecatedTag t c).maxLength = c.maxLength := by
  simp only [applyDeprecatedTag]; split <;> rfl

theorem applyExampleTag_maxLength (t : TagInfo) (c : SchemaCore SchemaObject) :
    (applyExampleTag t c).maxLength = c.maxLength := by
  simp only [applyExampleTag]; split <;> rfl

theorem applyStringConstraints_max_some (t : TagInfo) (c : SchemaCore SchemaObject)
    (hs : c.type = "string") (v : Int) (hv : t.maxLength = some v) :
    (applyStringConstraints t c).maxLength = some v := by
  simp [applyStringConstraints, hs, hv]

theorem applyStringConstraints_max_none (t : TagInfo) (c : SchemaCore SchemaObject)
    (hs : c.type = "string") (hv : t.maxLength = none) :
    (applyStringConstraints t c).maxLength = t.gormSize := by
  cases hg : t.gormSize <;> simp [applyStringConstraints, hs, hv, hg]

/-! ## C4: the documentation-override namespace wins for format and enum -/

/-- C4: for every combination of the four raw tag strings, whenever the
docs namespace supplies a format (resp. a non-empty enum), the merged
directive's format (resp. enum) is exactly the docs value, regardless of
what the validation namespace supplied. -/
theorem c4_docs_override_wins (j b g d : String) :
    ((parseDocsTag d).docsFormat ≠ "" →
      (mergeTags j b g d).format = (parseDocsTag d).docsFormat) ∧
    ((parseDocsTag d).docsEnum ≠ [] →
      (mergeTags j b g d).enum = (parseDocsTag d).docsEnum) := by
  constructor <;> intro h <;> simp [mergeTags, h] <;> split <;> simp [h]

/-- Witness for C4 at Scenario E: validation format `email`, docs override
`format:uri`, merged format `uri`. -/
theorem c4_witness :
    (parseBindingTag "email").format = "email" ∧
    (parseDocsTag "format:uri").docsFormat = "uri" ∧
    (mergeTags "" "email" "" "format:uri").format = "uri" :=
  ⟨by decide, by decide, (c4_docs_override_wins "" "email" "" "format:uri").1 (by decide)⟩

/-! ## C5: the GORM size only fills a gap left by the validation namespace -/

/-- C5: on a string-kind schema, a validation max length always survives
into the applied schema, and the persistence (GORM) size becomes the
`maxLength` exactly when the validation namespace left it unset. -/
theorem c5_gorm_size_fills_gap_only (schema : SchemaObject) (tags : TagInfo)
    (hs : schema.core.type = "string") :
    (∀ v, tags.maxLength = some v →
      (applyTagConstraints schema tags).core.maxLength = some v) ∧
    (tags.maxLength = none →
      (applyTagConstraints schema tags).core.maxLength = tags.gormSize) := by
  have htype : (applyNumericConstraints tags (applyEnumTag tags (applyFormatTag tags
      (applyUniqueIndexTag tags (applyDescriptionTag tags schema.core))))).type = "string" := by
    rw [applyNumericConstraints_type, applyEnumTag_type, applyFormatTag_type,
      applyUniqueIndexTag_type, applyDescriptionTag_type, hs]
  constructor
  · intro v hv
    show (applyExampleTag tags (applyDeprecatedTag tags (applyReadOnlyTag tags
      (applyDefaultTag tags (applyStringConstraints tags _))))).maxLength = some v
    rw [applyExampleTag_maxLength, applyDeprecatedTag_maxLength, applyReadOnlyTag_maxLength,
      applyDefaultTag_maxLength, applyStringConstraints_max_some tags _ htype v hv]
  · intro hv
    show (applyExampleTag tags (applyDeprecatedTag tags (applyReadOnlyTag tags
      (applyDefaultTag tags (applyStringConstraints tags _))))).maxLength = tags.gormSize
    rw [applyExampleTag_maxLength, applyDeprecatedTag_maxLength, applyReadOnlyTag_maxLength,
      applyDefaultTag_maxLength, applyStringConstraints_max_none tags _ htype hv]

/-- Witness for C5: with a validation `max=100` a GORM `size:200` does not
override, and with no validation max the GORM size fills the gap (the
`TestUser.Email` situation from the repository's own tests). -/
theorem c5_witness :
    (applyTagConstraints (.mk { type := "string" })
      (mergeTags "" "max=100" "size:200" "")).core.maxLength = some 100 ∧
    (applyTagConstraints (.mk { type := "string" })
      (mergeTags "" "required,email" "size:200;uniqueIndex" "")).core.maxLength = some 200 := by
  constructor
  · exact (c5_gorm_size_fills_gap_only (.mk { type := "string" })
      (mergeTags "" "max=100" "size:200" "") (by decide)).1 100 (by decide)
  · have h := (c5_gorm_size_fills_gap_only (.mk { type := "string" })
      (mergeTags "" "required,email" "size:200;uniqueIndex" "") (by decide)).2 (by decide)
    rw [h]; decide

/-! ## C8: malformed clauses, clause by clause -/

/-- A malformed `min=` clause in the binding namespace is a no-op. -/
theorem bindingClause_min_malformed (info : TagInfo) (p v : String)
    (h1 : trimSpaceS p = "min=" ++ v) (h2 : goAtoi v = none) :
    bindingClause info p = info := by
  have e1 : "min=" ++ v ≠ "required" := append_ne_lit _ _ _ (by decide)
  have e2 : "min=" ++ v ≠ "email" := append_ne_lit _ _ _ (by decide)
  have e3 : "min=" ++ v ≠ "url" := append_ne_lit _ _ _ (by decide)
  have e4 : "min=" ++ v ≠ "uri" := append_ne_lit _ _ _ (by decide)
  have e5 : "min=" ++ v ≠ "http_url" := append_ne_lit _ _ _ (by decide)
  have e6 : "min=" ++ v ≠ "uuid" := append_ne_lit _ _ _ (by decide)
  have e7 : "min=" ++ v ≠ "uuid3" := append_ne_lit _ _ _ (by decide)
  have e8 : "min=" ++ v ≠ "uuid4" := append_ne_lit _ _ _ (by decide)
  have e9 : "min=" ++ v ≠ "uuid5" := append_ne_lit _ _ _ (by decide)
  have e10 : "min=" ++ v ≠ "ipv4" := append_ne_lit _ _ _ (by decide)
  have e11 : "min=" ++ v ≠ "ipv6" := append_ne_lit _ _ _ (by decide)
  have e12 : "min=" ++ v ≠ "ip" := append_ne_lit _ _ _ (by decide)
  have e13 : "min=" ++ v ≠ "datetime" := append_ne_lit _ _ _ (by decide)
  have f1 : strStarts ("min=" ++ v) "oneof=" = false :=
    strStarts_append_false _ _ _ (by decide) (by decide)
  have f2 : strStarts ("min=" ++ v) "min=" = true := strStarts_append_self _ _
  have g1 : trimPre ("min=" ++ v) "min=" = v := trimPre_append_self _ _
  simp [bindingClause, h1, e1, e2, e3, e4, e5, e6, e7, e8, e9, e10, e11, e12, e13,
    f1, f2, g1, h2]

/-- A malformed `max=` clause in the binding namespace is a no-op. -/
theorem bindingClause_max_malformed (info : TagInfo) (p v : String)
    (h1 : trimSpaceS p = "max=" ++ v) (h2 : goAtoi v = none) :
    bindingClause info p = info := by
  have e1 : "max=" ++ v ≠ "required" := append_ne_lit _ _ _ (by decide)
  have e2 : "max=" ++ v ≠ "email" := append_ne_lit _ _ _ (by decide)
  have e3 : "max=" ++ v ≠ "url" := append_ne_lit _ _ _ (by decide)
  have e4 : "max=" ++ v ≠ "uri" := append_ne_lit _ _ _ (by decide)
  have e5 : "max=" ++ v ≠ "http_url" := append_ne_lit _ _ _ (by decide)
  have e6 : "max=" ++ v ≠ "uuid" := append_ne_lit _ _ _ (by decide)
  have e7 : "max=" ++ v ≠ "uuid3" := append_ne_lit _ _ _ (by decide)
  have e8 : "max=" ++ v ≠ "uuid4" := append_ne_lit _ _ _ (by decide)
  have e9 : "max=" ++ v ≠ "uuid5" := append_ne_lit _ _ _ (by decide)
  have e10 : "max=" ++ v ≠ "ipv4" := append_ne_lit _ _ _ (by decide)
  have e11 : "max=" ++ v ≠ "ipv6" := append_ne_lit _ _ _ (by decide)
  have e12 : "max=" ++ v ≠ "ip" := append_ne_lit _ _ _ (by decide)
  have e13 : "max=" ++ v ≠ "datetime" := append_ne_lit _ _ _ (by decide)
  have f1 : strStarts ("max=" ++ v) "oneof=" = false :=
    strStarts_append_false _ _ _ (by decide) (by decide)
  have f2 : strStarts ("max=" ++ v) "min=" = false :=
    strStarts_append_false _ _ _ (by decide) (by decide)
  have f3 : strStarts ("max=" ++ v) "max=" = true := strStarts_append_self _ _
  have g1 : trimPre ("max=" ++ v) "max=" = v := trimPre_append_self _ _
  simp [bindingClause, h1, e1, e2, e3, e4, e5, e6, e7, e8, e9, e10, e11, e12, e13,
    f1, f2, f3, g1, h2]

/-- A malformed `gte=` clause in the binding namespace is a no-op. -/
theorem bindingClause_gte_malformed (info : TagInfo) (p v : String)
    (h1 : trimSpaceS p = "gte=" ++ v) (h2 : goParseFloat v = none) :
    bindingClause info p = info := by
  have e1 : "gte=" ++ v ≠ "required" := append_ne_lit _ _ _ (by decide)
  have e2 : "gte=" ++ v ≠ "email" := append_ne_lit _ _ _ (by decide)
  have e3 : "gte=" ++ v ≠ "url" := append_ne_lit _ _ _ (by decide)
  have e4 : "gte=" ++ v ≠ "uri" := append_ne_lit _ _ _ (by decide)
  have e5 : "gte=" ++ v ≠ "http_url" := append_ne_lit _ _ _ (by decide)
  have e6 : "gte=" ++ v ≠ "uuid" := append_ne_lit _ _ _ (by decide)
  have e7 : "gte=" ++ v ≠ "uuid3" := append_ne_lit _ _ _ (by decide)
  have e8 : "gte=" ++ v ≠ "uuid4" := append_ne_lit _ _ _ (by decide)
  have e9 : "gte=" ++ v ≠ "uuid5" := append_ne_lit _ _ _ (by decide)
  have e10 : "gte=" ++ v ≠ "ipv4" := append_ne_lit _ _ _ (by decide)
  have e11 : "gte=" ++ v ≠ "ipv6" := append_ne_lit _ _ _ (by decide)
  have e12 : "gte=" ++ v ≠ "ip" := append_ne_lit _ _ _ (by decide)
  have e13 : "gte=" ++ v ≠ "datetime" := append_ne_lit _ _ _ (by decide)
  have f1 : strStarts ("gte=" ++ v) "oneof=" = false :=
    strStarts_append_false _ _ _ (by decide) (by decide)
  have f2 : strStarts ("gte=" ++ v) "min=" = false :=
    strStarts_append_false _ _ _ (by decide) (by decide)
  have f3 : strStarts ("gte=" ++ v) "max=" = false :=
    strStarts_append_false _ _ _ (by decide) (by decide)
  have f4 : strStarts ("gte=" ++ v) "gte=" = true := strStarts_append_self _ _
  have g1 : trimPre ("gte=" ++ v) "gte=" = v := trimPre_append_self _ _
  simp [bindingClause, h1, e1, e2, e3, e4, e5, e6, e7, e8, e9, e10, e11, e12, e13,
    f1, f2, f3, f4, g1, h2]

/-- A malformed `lte=` clause in the binding namespace is a no-op. -/
theorem bindingClause_lte_malformed (info : TagInfo) (p v : String)
    (h1 : trimSpaceS p = "lte=" ++ v) (h2 : goParseFloat v = none) :
    bindingClause info p = info := by
  have e1 : "lte=" ++ v ≠ "required" := append_ne_lit _ _ _ (by decide)
  have e2 : "lte=" ++ v ≠ "email" := append_ne_lit _ _ _ (by decide)
  have e3 : "lte=" ++ v ≠ "url" := append_ne_lit _ _ _ (by decide)
  have e4 : "lte=" ++ v ≠ "uri" := append_ne_lit _ _ _ (by decide)
  have e5 : "lte=" ++ v ≠ "http_url" := append_ne_lit _ _ _ (by decide)
  have e6 : "lte=" ++ v ≠ "uuid" := append_ne_lit _ _ _ (by decide)
  have e7 : "lte=" ++ v ≠ "uuid3" := append_ne_lit _ _ _ (by decide)
  have e8 : "lte=" ++ v ≠ "uuid4" := append_ne_lit _ _ _ (by decide)
  have e9 : "lte=" ++ v ≠ "uuid5" := append_ne_lit _ _ _ (by decide)
  have e10 : "lte=" ++ v ≠ "ipv4" := append_ne_lit _ _ _ (by decide)
  have e11 : "lte=" ++ v ≠ "ipv6" := append_ne_lit _ _ _ (by decide)
  have e12 : "lte=" ++ v ≠ "ip" := append_ne_lit _ _ _ (by decide)
  have e13 : "lte=" ++ v ≠ "datetime" := append_ne_lit _ _ _ (by decide)
  have f1 : strStarts ("lte=" ++ v) "oneof=" = false :=
    strStarts_append_false _ _ _ (by decide) (by decide)
  have f2 : strStarts ("lte=" ++ v) "min=" = false :=
    strStarts_append_false _ _ _ (by decide) (by decide)
  have f3 : strStarts ("lte=" ++ v) "max=" = false :=
    strStarts_append_false _ _ _ (by decide) (by decide)
  have f4 : strStarts ("lte=" ++ v) "gte=" = false :=
    strStarts_append_false _ _ _ (by decide) (by decide)
  have f5 : strStarts ("lte=" ++ v) "gt=" = false :=
    strStarts_append_false _ _ _ (by decide) (by decide)
  have f6 : strStarts ("lte=" ++ v) "lte=" = true := strStarts_append_self _ _
  have g1 : trimPre ("lte=" ++ v) "lte=" = v := trimPre_append_self _ _
  simp [bindingClause, h1, e1, e2, e3, e4, e5, e6, e7, e8, e9, e10, e11, e12, e13,
    f1, f2, f3, f4, f5, f6, g1, h2]

theorem lowerS_append (s t : String) : lowerS (s ++ t) = lowerS s ++ lowerS t := by
  cases s; cases t; simp [lowerS, dataAppend]; rfl

/-- A malformed `size:` clause in the GORM namespace is a no-op. -/
theorem gormClause_size_malformed (info : TagInfo) (p v : String)
    (h1 : trimSpaceS p = "size:" ++ v) (h2 : goAtoi (lowerS v) = none) :
    gormClause info p = info := by
  have hl : lowerS ("size:" ++ v) = "size:" ++ lowerS v := by
    rw [lowerS_append]
    congr 1
  have e1 : "size:" ++ lowerS v ≠ "primarykey" := append_ne_lit _ _ _ (by decide)
  have e2 : "size:" ++ lowerS v ≠ "primary_key" := append_ne_lit _ _ _ (by decide)
  have e3 : "size:" ++ lowerS v ≠ "autocreatetime" := append_ne_lit _ _ _ (by decide)
  have e4 : "size:" ++ lowerS v ≠ "autoupdatetime" := append_ne_lit _ _ _ (by decide)
  have e5 : "size:" ++ lowerS v ≠ "uniqueindex" := append_ne_lit _ _ _ (by decide)
  have f1 : strStarts ("size:" ++ lowerS v) "uniqueindex:" = false :=
    strStarts_append_false _ _ _ (by decide) (by decide)
  have f2 : strStarts ("size:" ++ lowerS v) "size:" = true := strStarts_append_self _ _
  have g1 : trimPre ("size:" ++ lowerS v) "size:" = lowerS v := trimPre_append_self _ _
  simp [gormClause, h1, hl, e1, e2, e3, e4, e5, f1, f2, g1, h2]

/-- An empty `oneof=` clause resets the enum to the empty list (erasing an
earlier enum from the same tag, rather than leaving it untouched). -/
theorem bindingClause_oneof_empty (info : TagInfo) (p : String)
    (hp : trimSpaceS p = "oneof=") :
    bindingClause info p = { info with enum := [] } := by
  simp [bindingClause, hp, goFields, trimPre, strStarts]

/-- C8 (amended): parsing every raw tag string is total by construction,
and a clause whose numeric payload fails to parse (`min=`/`max=` via Atoi,
`gte=`/`lte=` via ParseFloat in the validation namespace, `size:` via Atoi
in the persistence namespace) is dropped: removing it from the clause list
leaves the parsed directive unchanged, so all other well-formed clauses of
the same tag still populate it.  An empty `oneof=` enum clause, however, is
not merely dropped — it resets the accumulated enum to empty.  The last two
conjuncts tie the clause folds to `parseBindingTag` / `parseGORMTag`. -/
theorem c8_malformed_clause_dropped
    (i₀ j₀ : TagInfo) (a b c d : List String) (p q v w : String)
    (hp : (trimSpaceS p = "min=" ++ v ∨ trimSpaceS p = "max=" ++ v) ∧ goAtoi v = none
        ∨ (trimSpaceS p = "gte=" ++ v ∨ trimSpaceS p = "lte=" ++ v) ∧ goParseFloat v = none)
    (hq : trimSpaceS q = "size:" ++ w ∧ goAtoi (lowerS w) = none) :
    List.foldl bindingClause i₀ (a ++ p :: b) = List.foldl bindingClause i₀ (a ++ b)
    ∧ List.foldl gormClause j₀ (c ++ q :: d) = List.foldl gormClause j₀ (c ++ d)
    ∧ (∀ info s, trimSpaceS s = "oneof=" → bindingClause info s = { info with enum := [] })
    ∧ (∀ tag, tag ≠ "" → tag ≠ "-" →
        parseBindingTag tag = List.foldl bindingClause {} (goSplit tag ','))
    ∧ (∀ tag, tag ≠ "" → tag ≠ "-" → tag ≠ "-:all" →
        parseGORMTag tag = List.foldl gormClause {} (goSplit tag ';')) := by
  have hnoop : ∀ i : TagInfo, bindingClause i p = i := by
    intro i
    rcases hp with ⟨hf | hf, hn⟩ | ⟨hf | hf, hn⟩
    · exact bindingClause_min_malformed i p v hf hn
    · exact bindingClause_max_malformed i p v hf hn
    · exact bindingClause_gte_malformed i p v hf hn
    · exact bindingClause_lte_malformed i p v hf hn
  have hnoopg : ∀ i : TagInfo, gormClause i q = i :=
    fun i => gormClause_size_malformed i q w hq.1 hq.2
  refine ⟨?_, ?_, ?_, ?_, ?_⟩
  · rw [List.foldl_append, List.foldl_append, List.foldl_cons, hnoop]
  · rw [List.foldl_append, List.foldl_append, List.foldl_cons, hnoopg]
  · exact fun info s hs => bindingClause_oneof_empty info s hs
  · intro tag ht1 ht2
    simp [parseBindingTag, ht1, ht2]
  · intro tag ht1 ht2 ht3
    simp [parseGORMTag, ht1, ht2, ht3]

/-- Witness for C8 (amended), at a tag with a malformed `min=abc` among
well-formed clauses and a GORM tag with a malformed `size:xy`. -/
theorem c8_witness :
    goAtoi "abc" = none ∧ goAtoi (lowerS "xy") = none ∧
    List.foldl bindingClause {} (["required"] ++ "min=abc" :: ["max=5"])
      = List.foldl bindingClause {} (["required"] ++ ["max=5"]) ∧
    List.foldl gormClause {} (["primarykey"] ++ "size:xy" :: [])
      = List.foldl gormClause {} (["primarykey"] ++ []) := by
  refine ⟨by decide, by decide, ?_, ?_⟩
  · exact (c8_malformed_clause_dropped {} {} ["required"] ["max=5"] ["primarykey"] []
      "min=abc" "size:xy" "abc" "xy"
      (Or.inl ⟨Or.inl (by decide), by decide⟩) ⟨by decide, by decide⟩).1
  · exact (c8_malformed_clause_dropped {} {} ["required"] ["max=5"] ["primarykey"] []
      "min=abc" "size:xy" "abc" "xy"
      (Or.inl ⟨Or.inl (by decide), by decide⟩) ⟨by decide, by decide⟩).2.1

/-- Counterexample for C8 as stated: the claim promises that an empty enum
list clause is dropped while the remaining well-formed clauses of the same
tag still populate the directive, but after `oneof=a b,oneof=` the enum set
by the well-formed `oneof=a b` clause is gone. -/
theorem c8_counterexample :
    (parseBindingTag "oneof=a b").enum = ["a", "b"]
    ∧ (parseBindingTag "oneof=a b,oneof=").enum = []
    ∧ parseBindingTag "oneof=a b,oneof=" ≠ parseBindingTag "oneof=a b" := by
  exact ⟨by decide, by decide, by decide⟩

/-! ## Registry bookkeeping lemmas -/

/-- Keys of the schemas map are distinct (true of any Go map; preserved by
all registry operations). -/
def nodupKeys (r : TypeRegistry) : Prop :=
  (r.schemas.map Prod.fst).Nodup

theorem lookup_upsert_self {β : Type} (l : List (String × β)) (n : String) (v : β) :
    (upsert l n v).lookup n = some v := by
  induction l with
  | nil => simp [upsert, List.lookup]
  | cons kv t ih =>
    obtain ⟨k, w⟩ := kv
    by_cases h : k = n
    · simp [upsert, h, List.lookup]
    · simp [upsert, h, List.lookup, ih, beq_eq_false_iff_ne.mpr (Ne.symm h)]

theorem lookup_upsert_ne {β : Type} (l : List (String × β)) (n m : String) (v : β)
    (h : m ≠ n) : (upsert l n v).lookup m = l.lookup m := by
  induction l with
  | nil => simp [upsert, List.lookup, beq_eq_false_iff_ne.mpr h]
  | cons kv t ih =>
    obtain ⟨k, w⟩ := kv
    by_cases hk : k = n
    · subst hk
      simp [upsert, List.lookup, beq_eq_false_iff_ne.mpr h]
    · simp only [upsert, if_neg hk, List.lookup, ih]

theorem upsert_keys_sub {β : Type} (l : List (String × β)) (n m : String) (v : β)
    (h : (l.lookup m).isSome = true) : ((upsert l n v).lookup m).isSome = true := by
  by_cases hm : m = n
  · subst hm; rw [lookup_upsert_self]; rfl
  · rw [lookup_upsert_ne l n m v hm]; exact h

theorem upsert_map_fst {β : Type} (l : List (String × β)) (n : String) (v : β) :
    (upsert l n v).map Prod.fst
      = if n ∈ l.map Prod.fst then l.map Prod.fst else l.map Prod.fst ++ [n] := by
  induction l with
  | nil => simp [upsert]
  | cons kv t ih =>
    obtain ⟨k, w⟩ := kv
    by_cases h : k = n
    · simp [upsert, h]
    · simp only [upsert, if_neg h, List.map_cons]
      rw [ih]
      by_cases hm : n ∈ t.map Prod.fst <;>
        simp [hm, Ne.symm h]

theorem upsert_nodup {β : Type} (l : List (String × β)) (n : String) (v : β)
    (h : (l.map Prod.fst).Nodup) : ((upsert l n v).map Prod.fst).Nodup := by
  rw [upsert_map_fst]
  by_cases hm : n ∈ l.map Prod.fst
  · simpa [hm] using h
  · simp only [hm, if_false]
    apply List.Nodup.append h (List.nodup_singleton n)
    intro x hx hxn
    rw [List.mem_singleton] at hxn
    subst hxn
    exact hm hx

theorem lookup_isSome_iff_mem {β : Type} (l : List (String × β)) (n : String) :
    (l.lookup n).isSome = true ↔ n ∈ l.map Prod.fst := by
  induction l with
  | nil => simp [List.lookup]
  | cons kv t ih =>
    obtain ⟨k, w⟩ := kv
    by_cases h : n = k
    · simp [List.lookup, h]
    · simp only [List.lookup, List.map_cons, List.mem_cons,
        beq_eq_false_iff_ne.mpr h]
      simp [h, ih]

theorem filter_ne_of_not_contains (id : Nat) (s : List Nat) (h : s.contains id = false) :
    s.filter (· ≠ id) = s := by
  induction s with
  | nil => rfl
  | cons a t ih =>
    rw [show ((a :: t).contains id) = (id == a || t.contains id) from rfl,
      Bool.or_eq_false_iff] at h
    rw [List.filter_cons,
      if_pos (decide_eq_true (Ne.symm (beq_eq_false_iff_ne.mp h.1))), ih h.2]

/-- The seen set after a balanced mark/unmark pair is what it was. -/
theorem seen_mark_unmark (s : List Nat) (id : Nat) (h : s.contains id = false) :
    ((if s.contains id then s else id :: s).filter (· ≠ id)) = s := by
  rw [if_neg (by simpa using h), List.filter_cons,
    if_neg (by simp)]
  exact filter_ne_of_not_contains id s h

/-! ## Registry evolution: the compiler leaves the seen set as it found it,
only adds registered names, and preserves key distinctness -/

/-- How the registry may evolve across one compiler call. -/
def RegEvolve (r r₁ : TypeRegistry) : Prop :=
  r₁.seen = r.seen
  ∧ (∀ n, r.has n = true → r₁.has n = true)
  ∧ (nodupKeys r → nodupKeys r₁)

theorem RegEvolve.rfl (r : TypeRegistry) : RegEvolve r r :=
  ⟨Eq.refl _, fun _ h => h, fun h => h⟩

theorem RegEvolve.trans {r r₁ r₂ : TypeRegistry}
    (h1 : RegEvolve r r₁) (h2 : RegEvolve r₁ r₂) : RegEvolve r r₂ :=
  ⟨h2.1.trans h1.1, fun n h => h2.2.1 n (h1.2.1 n h), fun h => h2.2.2 (h1.2.2 h)⟩

/-- A type compiler that evolves the registry admissibly on success. -/
def PreservesReg (c : GoType → TypeRegistry → Option (SchemaObject × TypeRegistry)) : Prop :=
  ∀ t r s r₁, c t r = some (s, r₁) → RegEvolve r r₁

theorem stripPtr_no_ptr (t : GoType) : ∀ t' : GoType, stripPtr t ≠ GoType.ptr t' := by
  induction t <;> intro t' <;> simp_all [stripPtr]

theorem fieldToSchemaWith_evol (c : GoType → TypeRegistry → Option (SchemaObject × TypeRegistry))
    (hc : PreservesReg c) (t : GoType) (tags : TagInfo) (r : TypeRegistry)
    (s : SchemaObject) (r₁ : TypeRegistry)
    (h : fieldToSchemaWith c t tags r = some (s, r₁)) : RegEvolve r r₁ := by
  unfold fieldToSchemaWith at h
  cases hcall : c t r with
  | none => simp [hcall] at h
  | some p =>
    obtain ⟨base, rb⟩ := p
    simp only [hcall] at h
    have hb : RegEvolve r rb := hc _ _ _ _ hcall
    split at h
    · split at h <;>
      · have h2 : rb = r₁ := congrArg Prod.snd (Option.some.inj h)
        exact h2 ▸ hb
    · have h2 : rb = r₁ := congrArg Prod.snd (Option.some.inj h)
      exact h2 ▸ hb

theorem processStructFields_evol (env : Env)
    (c : GoType → TypeRegistry → Option (SchemaObject × TypeRegistry))
    (hc : PreservesReg c) :
    ∀ (g : Nat) (fields : List FieldDef) (props : List (String × SchemaObject))
      (req : List String) (r : TypeRegistry) (out : List (String × SchemaObject) × List String × TypeRegistry),
      processStructFields env c g fields props req r = some out → RegEvolve r out.2.2 := by
  intro g
  induction g with
  | zero =>
    intro fields props req r out h
    cases fields with
    | nil =>
      simp only [processStructFields, Option.some.injEq] at h
      exact h ▸ RegEvolve.rfl r
    | cons fd rest => exact absurd h (by simp [processStructFields])
  | succ g ih =>
    intro fields props req r out h
    cases fields with
    | nil =>
      simp only [processStructFields, Option.some.injEq] at h
      exact h ▸ RegEvolve.rfl r
    | cons fd rest =>
      rw [processStructFields] at h
      split at h
      · exact ih rest props req r out h
      · cases hemb : embeddedTarget fd with
        | some eid =>
          simp only [hemb] at h
          cases hinner : processStructFields env c g (defOf env eid).fields props req r with
          | none => simp [hinner] at h
          | some mid =>
            obtain ⟨p1, q1, r1⟩ := mid
            simp only [hinner] at h
            exact (ih _ _ _ _ _ hinner).trans (ih _ _ _ _ _ h)
        | none =>
          simp only [hemb] at h
          split at h
          · exact ih rest props req r out h
          · cases hf : fieldToSchemaWith c fd.ftype
                (mergeTags fd.jsonTag fd.bindingTag fd.gormTag fd.docsTag) r with
            | none => simp [hf] at h
            | some fp =>
              obtain ⟨fs, r1⟩ := fp
              simp only [hf] at h
              exact (fieldToSchemaWith_evol c hc _ _ _ _ _ hf).trans (ih _ _ _ _ _ h)

theorem register_unmark_evol (r r₂ : TypeRegistry) (id : Nat) (name : String)
    (schema : SchemaObject)
    (hseen : r.seen.contains id = false)
    (hwalk : RegEvolve (r.markSeen id) r₂) :
    RegEvolve r ((r₂.register name schema).unmarkSeen id) := by
  refine ⟨?_, ?_, ?_⟩
  · show ((r₂.register name schema).unmarkSeen id).seen = r.seen
    have h2 : r₂.seen = (r.markSeen id).seen := hwalk.1
    show r₂.seen.filter (· ≠ id) = r.seen
    rw [h2]
    exact seen_mark_unmark r.seen id hseen
  · intro n hn
    have h1 : (r.markSeen id).has n = true := hn
    have h2 : r₂.has n = true := hwalk.2.1 n h1
    show ((upsert r₂.schemas name schema).lookup n).isSome = true
    exact upsert_keys_sub _ _ _ _ h2
  · intro hn
    have h2 : nodupKeys r₂ := hwalk.2.2 hn
    exact upsert_nodup _ _ _ h2

theorem structToSchemaAux_evol (env : Env)
    (c : GoType → TypeRegistry → Option (SchemaObject × TypeRegistry))
    (hc : PreservesReg c) (g : Nat) (id : Nat) (r : TypeRegistry)
    (s : SchemaObject) (r₁ : TypeRegistry)
    (h : structToSchemaAux env c g id r = some (s, r₁)) : RegEvolve r r₁ := by
  simp only [structToSchemaAux] at h
  by_cases hhas : r.has (schemaName env (GoType.structT id)) = true
  · rw [if_pos hhas] at h
    simp only [Option.some.injEq, Prod.mk.injEq] at h
    exact h.2 ▸ RegEvolve.rfl r
  · rw [if_neg hhas] at h
    by_cases hseen : r.isSeen id = true
    · rw [if_pos hseen] at h
      simp only [Option.some.injEq, Prod.mk.injEq] at h
      exact h.2 ▸ RegEvolve.rfl r
    · rw [if_neg hseen] at h
      cases hwalk : processStructFields env c g (defOf env id).fields [] [] (r.markSeen id) with
      | none => simp [hwalk] at h
      | some out =>
        obtain ⟨props, req, r₂⟩ := out
        simp only [hwalk, Option.some.injEq, Prod.mk.injEq] at h
        have hcont : r.seen.contains id = false := by
          simpa [TypeRegistry.isSeen] using hseen
        exact h.2 ▸ register_unmark_evol r r₂ id _ _ hcont
          (processStructFields_evol env c hc g _ _ _ _ _ hwalk)

theorem typeToSchema_evol (env : Env) : ∀ f, PreservesReg (typeToSchema env f) := by
  intro f
  induction f with
  | zero => intro t r s r₁ h; exact absurd h (by simp [typeToSchema])
  | succ f ih =>
    intro t r s r₁ h
    rw [typeToSchema] at h
    cases ht : stripPtr t <;> rw [ht] at h <;>
      simp only [specialTypeSchema, Option.some.injEq, Prod.mk.injEq] at h
    case boolT | intT | int8T | int16T | int32T | int64T
      | uintT | uint8T | uint16T | uint32T | uint64T
      | float32T | float64T | stringT | interfaceT | timeT | textMarshalerT | otherT =>
      exact h.2 ▸ RegEvolve.rfl r
    case ptr t' => exact absurd ht (stripPtr_no_ptr t t')
    case structT id => exact structToSchemaAux_evol env _ ih f id r s r₁ h
    case slice e =>
      cases hrec : typeToSchema env f e r with
      | none => rw [hrec] at h; exact absurd h (by simp)
      | some p =>
        obtain ⟨es, r2⟩ := p
        rw [hrec] at h
        have he : RegEvolve r r2 := ih _ _ _ _ hrec
        split_ifs at h <;> simp only [Option.some.injEq, Prod.mk.injEq] at h <;>
          exact h.2 ▸ he
    case arr e =>
      cases hrec : typeToSchema env f e r with
      | none => rw [hrec] at h; exact absurd h (by simp)
      | some p =>
        obtain ⟨es, r2⟩ := p
        rw [hrec] at h
        have he : RegEvolve r r2 := ih _ _ _ _ hrec
        split_ifs at h <;> simp only [Option.some.injEq, Prod.mk.injEq] at h <;>
          exact h.2 ▸ he
    case mapT v =>
      cases hrec : typeToSchema env f v r with
      | none => rw [hrec] at h; exact absurd h (by simp)
      | some p =>
        obtain ⟨vs, r2⟩ := p
        rw [hrec] at h
        simp only [Option.some.injEq, Prod.mk.injEq] at h
        exact h.2 ▸ ih _ _ _ _ hrec

/-! ## Immediate-reference lemmas for `structToSchema` -/

theorem structToSchemaAux_of_has (env : Env)
    (c : GoType → TypeRegistry → Option (SchemaObject × TypeRegistry)) (g id : Nat)
    (r : TypeRegistry) (h : r.has (schemaName env (GoType.structT id)) = true) :
    structToSchemaAux env c g id r
      = some (SchemaRef (schemaName env (GoType.structT id)), r) := by
  simp [structToSchemaAux, h]

theorem structToSchemaAux_of_seen (env : Env)
    (c : GoType → TypeRegistry → Option (SchemaObject × TypeRegistry)) (g id : Nat)
    (r : TypeRegistry) (h : r.isSeen id = true) :
    structToSchemaAux env c g id r
      = some (SchemaRef (schemaName env (GoType.structT id)), r) := by
  by_cases hhas : r.has (schemaName env (GoType.structT id)) = true <;>
    simp [structToSchemaAux, h, hhas]

/-- A completed top-level compilation (the identity not already
in-progress) always returns the reference and leaves the name registered. -/
theorem structToSchemaAux_registers (env : Env)
    (c : GoType → TypeRegistry → Option (SchemaObject × TypeRegistry)) (g id : Nat)
    (r : TypeRegistry) (s : SchemaObject) (r₁ : TypeRegistry)
    (hseen : r.isSeen id = false)
    (h : structToSchemaAux env c g id r = some (s, r₁)) :
    s = SchemaRef (schemaName env (GoType.structT id))
    ∧ r₁.has (schemaName env (GoType.structT id)) = true := by
  simp only [structToSchemaAux] at h
  by_cases hhas : r.has (schemaName env (GoType.structT id)) = true
  · rw [if_pos hhas] at h
    simp only [Option.some.injEq, Prod.mk.injEq] at h
    exact ⟨h.1.symm, h.2 ▸ hhas⟩
  · rw [if_neg hhas, if_neg (by simp [hseen])] at h
    cases hwalk : processStructFields env c g (defOf env id).fields [] [] (r.markSeen id) with
    | none => simp [hwalk] at h
    | some out =>
      obtain ⟨props, req, r₂⟩ := out
      simp only [hwalk, Option.some.injEq, Prod.mk.injEq] at h
      refine ⟨h.1.symm, ?_⟩
      rw [← h.2]
      show ((upsert r₂.schemas (schemaName env (GoType.structT id)) _).lookup
        (schemaName env (GoType.structT id))).isSome = true
      rw [lookup_upsert_self]
      rfl

/-- One fuel step of `typeToSchema` on a struct kind is `structToSchema`. -/
theorem typeToSchema_succ_struct (env : Env) (f id : Nat) (r : TypeRegistry) :
    typeToSchema env (f + 1) (GoType.structT id) r = structToSchema env f id r := rfl

/-! ## C2: a type identity is compiled at most once per registry lifetime -/

/-- C2: once a struct identity has been compiled top-level (it was not
in-progress and the call succeeded), its schema name is registered, every
subsequent `structToSchema`/`typeToSchema` call on that identity returns
the `$ref` to the registered name at any fuel and leaves the registry
untouched (no re-walk), and the registry holds exactly one entry under
that name. -/
theorem c2_compiled_once (env : Env) (f : Nat) (id : Nat) (r : TypeRegistry)
    (s : SchemaObject) (r₁ : TypeRegistry)
    (hnodup : nodupKeys r)
    (hseen : r.isSeen id = false)
    (hcomp : structToSchema env f id r = some (s, r₁)) :
    r₁.has (schemaName env (GoType.structT id)) = true
    ∧ (∀ g, structToSchema env g id r₁
        = some (SchemaRef (schemaName env (GoType.structT id)), r₁))
    ∧ (∀ g, typeToSchema env (g + 1) (GoType.structT id) r₁
        = some (SchemaRef (schemaName env (GoType.structT id)), r₁))
    ∧ (r₁.schemas.map Prod.fst).count (schemaName env (GoType.structT id)) = 1 := by
  have hreg := structToSchemaAux_registers env (typeToSchema env f) f id r s r₁ hseen hcomp
  have hevol : RegEvolve r r₁ :=
    structToSchemaAux_evol env (typeToSchema env f) (typeToSchema_evol env f) f id r s r₁ hcomp
  have hsecond : ∀ g, structToSchema env g id r₁
      = some (SchemaRef (schemaName env (GoType.structT id)), r₁) :=
    fun g => structToSchemaAux_of_has env (typeToSchema env g) g id r₁ hreg.2
  refine ⟨hreg.2, hsecond, fun g => ?_, ?_⟩
  · rw [typeToSchema_succ_struct]
    exact hsecond g
  · exact List.count_eq_one_of_mem (hevol.2.2 hnodup)
      ((lookup_isSome_iff_mem _ _).mp hreg.2)

/-- A `Node` type whose `Children` field is a slice of `Node` (the
repository's own circular-reference test shape). -/
def nodeEnv : Env :=
  [⟨"Node", "main",
    [⟨"Name", true, false, .stringT, "name", "", "", ""⟩,
     ⟨"Children", true, false, .slice (.structT 0), "children", "", "", ""⟩]⟩]

/-- The registry produced by compiling `Node` from scratch. -/
def nodeReg : TypeRegistry :=
  match structToSchema nodeEnv 4 0 newTypeRegistry with
  | some (_, r) => r
  | none => newTypeRegistry

/-- Witness for C2 on the concrete `Node` environment. -/
theorem c2_witness :
    nodeReg.has "Node" = true
    ∧ structToSchema nodeEnv 2 0 nodeReg = some (SchemaRef "Node", nodeReg)
    ∧ (nodeReg.schemas.map Prod.fst).count "Node" = 1 := by
  have h := c2_compiled_once nodeEnv 4 0 newTypeRegistry (SchemaRef "Node") nodeReg
    (by simp [nodupKeys, newTypeRegistry]) (by rfl) (by rfl)
  exact ⟨h.1, h.2.1 2, h.2.2.2⟩

/-! ## C3: bare-name collisions — no qualifier exists; first compiled wins -/

/-- C3 (amended): schema names carry no module qualifier; when a distinct
identity shares the bare name of an already-registered one, its compilation
never walks its fields or registers anything — it immediately returns the
`$ref` to the shared name with the registry unchanged, which therefore
keeps exactly one entry under that name; and a named struct keeps its bare
type name. -/
theorem c3_collision_shares_entry (env : Env) (f g : Nat) (i j : Nat) (r : TypeRegistry)
    (s : SchemaObject) (r₁ : TypeRegistry)
    (hname : schemaName env (GoType.structT j) = schemaName env (GoType.structT i))
    (hnodup : nodupKeys r)
    (hseen : r.isSeen i = false)
    (hcomp : structToSchema env f i r = some (s, r₁)) :
    structToSchema env g j r₁ = some (SchemaRef (schemaName env (GoType.structT i)), r₁)
    ∧ (r₁.schemas.map Prod.fst).count (schemaName env (GoType.structT i)) = 1
    ∧ ((defOf env i).name ≠ "" → schemaName env (GoType.structT i) = (defOf env i).name) := by
  have hreg := structToSchemaAux_registers env (typeToSchema env f) f i r s r₁ hseen hcomp
  have hevol : RegEvolve r r₁ :=
    structToSchemaAux_evol env (typeToSchema env f) (typeToSchema_evol env f) f i r s r₁ hcomp
  refine ⟨?_, ?_, ?_⟩
  · have := structToSchemaAux_of_has env (typeToSchema env g) g j r₁ (hname ▸ hreg.2)
    rw [show structToSchema env g j r₁ = structToSchemaAux env (typeToSchema env g) g j r₁
      from rfl, this, hname]
  · exact List.count_eq_one_of_mem (hevol.2.2 hnodup)
      ((lookup_isSome_iff_mem _ _).mp hreg.2)
  · intro hne
    simp [schemaName, stripPtr, goTypeName, hne]

/-- Two distinct struct identities both named `Item`, in different
packages. -/
def itemEnv : Env :=
  [⟨"Item", "pkga", [⟨"X", true, false, .intT, "x", "", "", ""⟩]⟩,
   ⟨"Item", "pkgb", [⟨"Y", true, false, .stringT, "y", "", "", ""⟩]⟩]

/-- The registry after compiling the first `Item`. -/
def itemReg : TypeRegistry :=
  match structToSchema itemEnv 3 0 newTypeRegistry with
  | some (_, r) => r
  | none => newTypeRegistry

/-- Counterexample for C3 as stated: the claim promises the two `Item`
types register under distinct, module-qualified names with a unique
reference each; in fact both compilations return the same `$ref` to
`Item`, the registry holds a single entry, and its body is the first
type's (`x` field), the second never being compiled. -/
theorem c3_counterexample :
    structToSchema itemEnv 3 0 newTypeRegistry = some (SchemaRef "Item", itemReg)
    ∧ structToSchema itemEnv 3 1 itemReg = some (SchemaRef "Item", itemReg)
    ∧ itemReg.schemas.map Prod.fst = ["Item"]
    ∧ (itemReg.get "Item").map (fun x => x.core.properties.map Prod.fst) = some ["x"] :=
  ⟨rfl, rfl, rfl, rfl⟩

/-- Witness for C3 (amended) on the two-`Item` environment. -/
theorem c3_witness :
    structToSchema itemEnv 2 1 itemReg = some (SchemaRef "Item", itemReg)
    ∧ (itemReg.schemas.map Prod.fst).count "Item" = 1 := by
  have h := c3_collision_shares_entry itemEnv 3 2 0 1 newTypeRegistry
    (SchemaRef "Item") itemReg (by rfl) (by simp [nodupKeys, newTypeRegistry])
    (by rfl) (by rfl)
  exact ⟨h.1, h.2.1⟩

/-! ## C10: anonymous structs all share the name `AnonymousStruct` -/

/-- C10: every anonymous struct identity gets the fixed schema name
`AnonymousStruct`; once one such identity has been compiled, compiling any
other anonymous identity against the same registry immediately returns a
`$ref` to `AnonymousStruct` with the registry unchanged — its own fields
are never compiled. -/
theorem c10_anonymous_shared (env : Env) (f g : Nat) (i j : Nat) (r : TypeRegistry)
    (s : SchemaObject) (r₁ : TypeRegistry)
    (hi : (defOf env i).name = "") (hj : (defOf env j).name = "")
    (hseen : r.isSeen i = false)
    (hcomp : structToSchema env f i r = some (s, r₁)) :
    schemaName env (GoType.structT i) = "AnonymousStruct"
    ∧ schemaName env (GoType.structT j) = "AnonymousStruct"
    ∧ structToSchema env g j r₁ = some (SchemaRef "AnonymousStruct", r₁) := by
  have hni : schemaName env (GoType.structT i) = "AnonymousStruct" := by
    simp [schemaName, stripPtr, goTypeName, hi]
  have hnj : schemaName env (GoType.structT j) = "AnonymousStruct" := by
    simp [schemaName, stripPtr, goTypeName, hj]
  have hreg := structToSchemaAux_registers env (typeToSchema env f) f i r s r₁ hseen hcomp
  have := structToSchemaAux_of_has env (typeToSchema env g) g j r₁
    (by rw [hnj, ← hni]; exact hreg.2)
  refine ⟨hni, hnj, ?_⟩
  rw [show structToSchema env g j r₁ = structToSchemaAux env (typeToSchema env g) g j r₁
    from rfl, this, hnj]

/-- Two structurally different anonymous structs. -/
def anonEnv : Env :=
  [⟨"", "", [⟨"X", true, false, .intT, "x", "", "", ""⟩]⟩,
   ⟨"", "", [⟨"Y", true, false, .stringT, "y", "", "", ""⟩]⟩]

/-- The registry after compiling the first anonymous struct. -/
def anonReg : TypeRegistry :=
  match structToSchema anonEnv 3 0 newTypeRegistry with
  | some (_, r) => r
  | none => newTypeRegistry

/-- Witness for C10: the second, structurally different anonymous struct
resolves to the first one's registration, whose body still has only `x`. -/
theorem c10_witness :
    structToSchema anonEnv 2 1 anonReg = some (SchemaRef "AnonymousStruct", anonReg)
    ∧ (anonReg.get "AnonymousStruct").map (fun x => x.core.properties.map Prod.fst)
        = some ["x"] := by
  have h := c10_anonymous_shared anonEnv 3 2 0 1 newTypeRegistry
    (SchemaRef "AnonymousStruct") anonReg (by rfl) (by rfl) (by rfl) (by rfl)
  exact ⟨h.2.2, by rfl⟩

/-! ## C9: pointers are fully dereferenced and invisible in the output -/

theorem typeToSchema_ptr (env : Env) (u : GoType) (f : Nat) (r : TypeRegistry) :
    typeToSchema env f (GoType.ptr u) r = typeToSchema env f u r := by
  cases f with
  | zero => rfl
  | succ f => rfl

theorem schemaName_ptr (env : Env) (u : GoType) :
    schemaName env (GoType.ptr u) = schemaName env u := rfl

/-- C9: compiling any number of pointer indirections over a type yields
exactly the compilation of the underlying type — same schema, same
registry effects, same schema name — so pointer-ness (nullability) is not
reflected anywhere in the output. -/
theorem c9_pointer_transparent (env : Env) (k : Nat) (t : GoType) :
    (∀ f r, typeToSchema env f (GoType.ptr^[k] t) r = typeToSchema env f t r)
    ∧ schemaName env (GoType.ptr^[k] t) = schemaName env t := by
  induction k with
  | zero => exact ⟨fun f r => rfl, rfl⟩
  | succ k ih =>
    constructor
    · intro f r
      rw [Function.iterate_succ_apply', typeToSchema_ptr, ih.1]
    · rw [Function.iterate_succ_apply', schemaName_ptr, ih.2]

/-! ## Membership lemmas for `upsert` -/

theorem mem_upsert_keys {β : Type} (l : List (String × β)) (n k : String) (v : β) :
    k ∈ (upsert l n v).map Prod.fst ↔ (k = n ∨ k ∈ l.map Prod.fst) := by
  rw [upsert_map_fst]
  by_cases hm : n ∈ l.map Prod.fst
  · simp only [hm, if_true]
    constructor
    · exact Or.inr
    · rintro (h | h)
      · exact h ▸ hm
      · exact h
  · simp [hm, or_comm]

theorem mem_upsert {β : Type} (l : List (String × β)) (n : String) (v : β)
    (p : String × β) (h : p ∈ upsert l n v) : p = (n, v) ∨ p ∈ l := by
  induction l with
  | nil => simpa [upsert] using h
  | cons kv t ih =>
    obtain ⟨k, w⟩ := kv
    by_cases hk : k = n
    · rw [upsert, if_pos hk] at h
      rcases List.mem_cons.mp h with h1 | h1
      · exact Or.inl h1
      · exact Or.inr (List.mem_cons_of_mem _ h1)
    · rw [upsert, if_neg hk] at h
      rcases List.mem_cons.mp h with h1 | h1
      · exact Or.inr (h1 ▸ List.mem_cons_self _ _)
      · rcases ih h1 with h2 | h2
        · exact Or.inl h2
        · exact Or.inr (List.mem_cons_of_mem _ h2)

/-! ## `allOf` is untouched by constraint application, and compiler outputs
with a reference are bare references -/

theorem applyDescriptionTag_allOf (t : TagInfo) (c : SchemaCore SchemaObject) :
    (applyDescriptionTag t c).allOf = c.allOf := by
  simp only [applyDescriptionTag]; split <;> rfl

theorem applyUniqueIndexTag_allOf (t : TagInfo) (c : SchemaCore SchemaObject) :
    (applyUniqueIndexTag t c).allOf = c.allOf := by
  simp only [applyUniqueIndexTag]; split <;> rfl

theorem applyFormatTag_allOf (t : TagInfo) (c : SchemaCore SchemaObject) :
    (applyFormatTag t c).allOf = c.allOf := by
  simp only [applyFormatTag]; split <;> rfl

theorem applyEnumTag_allOf (t : TagInfo) (c : SchemaCore SchemaObject) :
    (applyEnumTag t c).allOf = c.allOf := by
  simp only [applyEnumTag]; split <;> rfl

theorem applyNumericConstraints_allOf (t : TagInfo) (c : SchemaCore SchemaObject) :
    (applyNumericConstraints t c).allOf = c.allOf := by
  simp only [applyNumericConstraints]; split <;> rfl

theorem applyStringConstraints_allOf (t : TagInfo) (c : SchemaCore SchemaObject) :
    (applyStringConstraints t c).allOf = c.allOf := by
  simp only [applyStringConstraints]
  split
  · split <;> rfl
  · rfl

theorem applyDefaultTag_allOf (t : TagInfo) (c : SchemaCore SchemaObject) :
    (applyDefaultTag t c).allOf = c.allOf := by
  cases h : t.gormDefault <;> simp [applyDefaultTag, h]

theorem applyReadOnlyTag_allOf (t : TagInfo) (c : SchemaCore SchemaObject) :
    (applyReadOnlyTag t c).allOf = c.allOf := by
  simp only [applyReadOnlyTag]; split <;> rfl

theorem applyDeprecatedTag_allOf (t : TagInfo) (c : SchemaCore SchemaObject) :
    (applyDeprecatedTag t c).allOf = c.allOf := by
  simp only [applyDeprecatedTag]; split <;> rfl

theorem applyExampleTag_allOf (t : TagInfo) (c : SchemaCore SchemaObject) :
    (applyExampleTag t c).allOf = c.allOf := by
  simp only [applyExampleTag]; split <;> rfl

theorem applyTagConstraints_allOf (s : SchemaObject) (t : TagInfo) :
    (applyTagConstraints s t).core.allOf = s.core.allOf := by
  show (applyExampleTag t _).allOf = _
  rw [applyExampleTag_allOf, applyDeprecatedTag_allOf, applyReadOnlyTag_allOf,
    applyDefaultTag_allOf, applyStringConstraints_allOf, applyNumericConstraints_allOf,
    applyEnumTag_allOf, applyFormatTag_allOf, applyUniqueIndexTag_allOf,
    applyDescriptionTag_allOf]

/-- Every successful `structToSchemaAux` result is a bare `SchemaRef`. -/
theorem structToSchemaAux_ref (env : Env)
    (c : GoType → TypeRegistry → Option (SchemaObject × TypeRegistry)) (g id : Nat)
    (r : TypeRegistry) (s : SchemaObject) (r₁ : TypeRegistry)
    (h : structToSchemaAux env c g id r = some (s, r₁)) :
    s = SchemaRef (schemaName env (GoType.structT id)) := by
  simp only [structToSchemaAux] at h
  by_cases hhas : r.has (schemaName env (GoType.structT id)) = true
  · rw [if_pos hhas] at h
    exact ((Prod.mk.injEq _ _ _ _).mp (Option.some.inj h)).1.symm
  · rw [if_neg hhas] at h
    by_cases hseen : r.isSeen id = true
    · rw [if_pos hseen] at h
      exact ((Prod.mk.injEq _ _ _ _).mp (Option.some.inj h)).1.symm
    · rw [if_neg hseen] at h
      cases hwalk : processStructFields env c g (defOf env id).fields [] [] (r.markSeen id) with
      | none => simp [hwalk] at h
      | some out =>
        obtain ⟨props, req, r₂⟩ := out
        simp only [hwalk, Option.some.injEq, Prod.mk.injEq] at h
        exact h.1.symm

/-- Top-level shape of every `typeToSchema` output: `allOf` is empty, and a
result carrying a `$ref` is a bare reference with no read-only marking. -/
theorem typeToSchema_tame (env : Env) (f : Nat) (t : GoType) (r : TypeRegistry)
    (s : SchemaObject) (r₁ : TypeRegistry)
    (h : typeToSchema env f t r = some (s, r₁)) :
    s.core.allOf = [] ∧ (s.core.ref ≠ "" → s.core.readOnly = false) := by
  cases f with
  | zero => exact absurd h (by simp [typeToSchema])
  | succ f =>
    rw [typeToSchema] at h
    cases ht : stripPtr t <;> rw [ht] at h <;>
      simp only [specialTypeSchema, Option.some.injEq, Prod.mk.injEq] at h
    case boolT | intT | int8T | int16T | int32T | int64T
      | uintT | uint8T | uint16T | uint32T | uint64T
      | float32T | float64T | stringT | interfaceT | timeT | textMarshalerT | otherT =>
      rw [← h.1]; exact ⟨rfl, fun hr => rfl⟩
    case ptr t' => exact absurd ht (stripPtr_no_ptr t t')
    case structT id =>
      rw [structToSchemaAux_ref env _ f id r s r₁ h]
      exact ⟨rfl, fun _ => rfl⟩
    case slice e =>
      cases hrec : typeToSchema env f e r with
      | none => rw [hrec] at h; exact absurd h (by simp)
      | some p =>
        obtain ⟨es, r2⟩ := p
        rw [hrec] at h
        split_ifs at h <;> simp only [Option.some.injEq, Prod.mk.injEq] at h <;>
          (rw [← h.1]; exact ⟨rfl, fun hr => rfl⟩)
    case arr e =>
      cases hrec : typeToSchema env f e r with
      | none => rw [hrec] at h; exact absurd h (by simp)
      | some p =>
        obtain ⟨es, r2⟩ := p
        rw [hrec] at h
        split_ifs at h <;> simp only [Option.some.injEq, Prod.mk.injEq] at h <;>
          (rw [← h.1]; exact ⟨rfl, fun hr => rfl⟩)
    case mapT v =>
      cases hrec : typeToSchema env f v r with
      | none => rw [hrec] at h; exact absurd h (by simp)
      | some p =>
        obtain ⟨vs, r2⟩ := p
        rw [hrec] at h
        simp only [Option.some.injEq, Prod.mk.injEq] at h
        rw [← h.1]; exact ⟨rfl, fun hr => rfl⟩

/-! ## `ref` is untouched by constraint application -/

theorem applyDescriptionTag_ref (t : TagInfo) (c : SchemaCore SchemaObject) :
    (applyDescriptionTag t c).ref = c.ref := by
  simp only [applyDescriptionTag]; split <;> rfl

theorem applyUniqueIndexTag_ref (t : TagInfo) (c : SchemaCore SchemaObject) :
    (applyUniqueIndexTag t c).ref = c.ref := by
  simp only [applyUniqueIndexTag]; split <;> rfl

theorem applyFormatTag_ref (t : TagInfo) (c : SchemaCore SchemaObject) :
    (applyFormatTag t c).ref = c.ref := by
  simp only [applyFormatTag]; split <;> rfl

theorem applyEnumTag_ref (t : TagInfo) (c : SchemaCore SchemaObject) :
    (applyEnumTag t c).ref = c.ref := by
  simp only [applyEnumTag]; split <;> rfl

theorem applyNumericConstraints_ref (t : TagInfo) (c : SchemaCore SchemaObject) :
    (applyNumericConstraints t c).ref = c.ref := by
  simp only [applyNumericConstraints]; split <;> rfl

theorem applyStringConstraints_ref (t : TagInfo) (c : SchemaCore SchemaObject) :
    (applyStringConstraints t c).ref = c.ref := by
  simp only [applyStringConstraints]
  split
  · split <;> rfl
  · rfl

theorem applyDefaultTag_ref (t : TagInfo) (c : SchemaCore SchemaObject) :
    (applyDefaultTag t c).ref = c.ref := by
  cases h : t.gormDefault <;> simp [applyDefaultTag, h]

theorem applyReadOnlyTag_ref (t : TagInfo) (c : SchemaCore SchemaObject) :
    (applyReadOnlyTag t c).ref = c.ref := by
  simp only [applyReadOnlyTag]; split <;> rfl

theorem applyDeprecatedTag_ref (t : TagInfo) (c : SchemaCore SchemaObject) :
    (applyDeprecatedTag t c).ref = c.ref := by
  simp only [applyDeprecatedTag]; split <;> rfl

theorem applyExampleTag_ref (t : TagInfo) (c : SchemaCore SchemaObject) :
    (applyExampleTag t c).ref = c.ref := by
  simp only [applyExampleTag]; split <;> rfl

theorem applyTagConstraints_ref (s : SchemaObject) (t : TagInfo) :
    (applyTagConstraints s t).core.ref = s.core.ref := by
  show (applyExampleTag t _).ref = _
  rw [applyExampleTag_ref, applyDeprecatedTag_ref, applyReadOnlyTag_ref,
    applyDefaultTag_ref, applyStringConstraints_ref, applyNumericConstraints_ref,
    applyEnumTag_ref, applyFormatTag_ref, applyUniqueIndexTag_ref,
    applyDescriptionTag_ref]

/-! ## The spec-side list of non-excluded variant field names -/

/-- Modelled from the spec: the emitted names of the fields a Create/Update
variant contains — exported fields of the flattened (embedded-struct
hoisted) field walk, excluding fields whose directive marks them as
identity key / auto-generated timestamp / otherwise server-assigned
(`shouldSkipForCreate`) and skip/hidden fields, in walk order; fuelled
exactly like the variant walks so the two recursions align. -/
def variantIncludedNames (env : Env) : Nat → List FieldDef → Option (List String)
  | _, [] => some []
  | 0, _ :: _ => none
  | g + 1, fd :: rest =>
    if fd.exported = false then variantIncludedNames env g rest
    else
      match embeddedTarget fd with
      | some eid =>
        match variantIncludedNames env g (defOf env eid).fields with
        | none => none
        | some ns1 =>
          match variantIncludedNames env g rest with
          | none => none
          | some ns2 => some (ns1 ++ ns2)
      | none =>
        if shouldSkipForCreate env fd then variantIncludedNames env g rest
        else
          let tags := mergeTags fd.jsonTag fd.bindingTag fd.gormTag fd.docsTag
          if tags.jsonSkip || tags.gormSkip || tags.hidden then
            variantIncludedNames env g rest
          else
            match variantIncludedNames env g rest with
            | none => none
            | some ms =>
              some ((if tags.jsonName = "" then fd.name else tags.jsonName) :: ms)

theorem processCreateFields_keys (env : Env)
    (c : GoType → TypeRegistry → Option (SchemaObject × TypeRegistry)) :
    ∀ (g : Nat) (fields : List FieldDef) (props : List (String × SchemaObject))
      (req : List String) (r : TypeRegistry)
      (out : List (String × SchemaObject) × List String × TypeRegistry)
      (ns : List String),
      processCreateFields env c g fields props req r = some out →
      variantIncludedNames env g fields = some ns →
      ∀ k, k ∈ out.1.map Prod.fst ↔ (k ∈ ns ∨ k ∈ props.map Prod.fst) := by
  intro g
  induction g with
  | zero =>
    intro fields props req r out ns h hn k
    cases fields with
    | nil =>
      simp only [processCreateFields, Option.some.injEq] at h
      simp only [variantIncludedNames, Option.some.injEq] at hn
      subst h; subst hn
      simp
    | cons fd rest => simp [processCreateFields] at h
  | succ g ih =>
    intro fields props req r out ns h hn k
    cases fields with
    | nil =>
      simp only [processCreateFields, Option.some.injEq] at h
      simp only [variantIncludedNames, Option.some.injEq] at hn
      subst h; subst hn
      simp
    | cons fd rest =>
      simp only [processCreateFields] at h
      simp only [variantIncludedNames] at hn
      by_cases hexp : fd.exported = false
      · rw [if_pos hexp] at h hn
        exact ih rest props req r out ns h hn k
      · rw [if_neg hexp] at h hn
        cases hemb : embeddedTarget fd with
        | some eid =>
          simp only [hemb] at h hn
          cases hin : processCreateFields env c g (defOf env eid).fields props req r with
          | none => simp [hin] at h
          | some mid =>
            simp only [hin] at h
            cases hn1 : variantIncludedNames env g (defOf env eid).fields with
            | none => simp [hn1] at hn
            | some ns1 =>
              simp only [hn1] at hn
              cases hn2 : variantIncludedNames env g rest with
              | none => simp [hn2] at hn
              | some ns2 =>
                simp only [hn2, Option.some.injEq] at hn
                subst hn
                have h1 := ih (defOf env eid).fields props req r mid ns1 hin hn1 k
                have h2 := ih rest mid.1 mid.2.1 mid.2.2 out ns2 (by
                  obtain ⟨a, b, rr⟩ := mid
                  exact h) hn2 k
                rw [h2, h1, List.mem_append]
                tauto
        | none =>
          simp only [hemb] at h hn
          by_cases hsk : shouldSkipForCreate env fd = true
          · rw [if_pos hsk] at h hn
            exact ih rest props req r out ns h hn k
          · rw [if_neg hsk] at h hn
            by_cases hsk2 : ((mergeTags fd.jsonTag fd.bindingTag fd.gormTag fd.docsTag).jsonSkip
                || (mergeTags fd.jsonTag fd.bindingTag fd.gormTag fd.docsTag).gormSkip
                || (mergeTags fd.jsonTag fd.bindingTag fd.gormTag fd.docsTag).hidden) = true
            · rw [if_pos hsk2] at h hn
              exact ih rest props req r out ns h hn k
            · rw [if_neg hsk2] at h hn
              cases hf : fieldToSchemaWith c fd.ftype
                  (mergeTags fd.jsonTag fd.bindingTag fd.gormTag fd.docsTag) r with
              | none => simp [hf] at h
              | some fp =>
                obtain ⟨fs, r1⟩ := fp
                simp only [hf] at h
                cases hm : variantIncludedNames env g rest with
                | none => simp [hm] at hn
                | some ms =>
                  simp only [hm, Option.some.injEq] at hn
                  subst hn
                  have h2 := ih rest _ _ r1 out ms h hm k
                  rw [h2, mem_upsert_keys, List.mem_cons]
                  tauto

/-! ## C6: the Create variant excludes exactly the server-assigned fields -/

/-- C6: the Create variant's property set is exactly the spec-side list of
non-excluded fields — exported fields of the flattened walk minus those
marked identity key / auto-timestamp / otherwise server-assigned
(`shouldSkipForCreate`) and minus skip/hidden fields. -/
theorem c6_create_excludes_auto_fields (env : Env) (f : Nat) (id : Nat) (r : TypeRegistry)
    (s : SchemaObject) (r₁ : TypeRegistry) (ns : List String)
    (hcomp : generateCreateVariant env f id r = some (s, r₁))
    (hns : variantIncludedNames env f (defOf env id).fields = some ns) :
    ∀ k, k ∈ s.core.properties.map Prod.fst ↔ k ∈ ns := by
  unfold generateCreateVariant at hcomp
  cases hwalk : processCreateFields env (typeToSchema env f) f (defOf env id).fields [] [] r with
  | none => rw [hwalk] at hcomp; exact absurd hcomp (by simp)
  | some out =>
    obtain ⟨props, req, r₂⟩ := out
    rw [hwalk] at hcomp
    simp only [Option.some.injEq, Prod.mk.injEq] at hcomp
    intro k
    have h := processCreateFields_keys env (typeToSchema env f) f (defOf env id).fields
      [] [] r (props, req, r₂) ns hwalk hns k
    rw [← hcomp.1]
    simpa using h

/-- Scenario C entity: `{ID (identity key), Name, CreatedAt (auto
timestamp)}`. -/
def entityEnv : Env :=
  [⟨"Entity", "main",
    [⟨"ID", true, false, .uintT, "id", "", "primarykey", ""⟩,
     ⟨"Name", true, false, .stringT, "name", "required", "", ""⟩,
     ⟨"CreatedAt", true, false, .timeT, "createdAt", "", "autoCreateTime", ""⟩]⟩]

/-- The Create variant schema computed for the Scenario C entity. -/
def entityCreate : SchemaObject :=
  match generateCreateVariant entityEnv 3 0 newTypeRegistry with
  | some (s, _) => s
  | none => .mk {}

/-- The registry left by computing the Scenario C Create variant. -/
def entityCreateReg : TypeRegistry :=
  match generateCreateVariant entityEnv 3 0 newTypeRegistry with
  | some (_, r) => r
  | none => newTypeRegistry

/-- Witness for C6 at Scenario C: only `name` remains. -/
theorem c6_witness :
    "name" ∈ entityCreate.core.properties.map Prod.fst
    ∧ "id" ∉ entityCreate.core.properties.map Prod.fst
    ∧ "createdAt" ∉ entityCreate.core.properties.map Prod.fst
    ∧ entityCreate.core.properties.map Prod.fst = ["name"] := by
  have h := c6_create_excludes_auto_fields entityEnv 3 0 newTypeRegistry
    entityCreate entityCreateReg ["name"] (by rfl) (by rfl)
  refine ⟨(h "name").mpr (by simp), fun hm => ?_, fun hm => ?_, by rfl⟩
  · have := (h "id").mp hm
    simp at this
  · have := (h "createdAt").mp hm
    simp at this

/-! ## C7: the Update variant — every field optional, read-only stripped -/

theorem processUpdateFields_keys (env : Env)
    (c : GoType → TypeRegistry → Option (SchemaObject × TypeRegistry)) :
    ∀ (g : Nat) (fields : List FieldDef) (props : List (String × SchemaObject))
      (r : TypeRegistry) (out : List (String × SchemaObject) × TypeRegistry)
      (ns : List String),
      processUpdateFields env c g fields props r = some out →
      variantIncludedNames env g fields = some ns →
      ∀ k, k ∈ out.1.map Prod.fst ↔ (k ∈ ns ∨ k ∈ props.map Prod.fst) := by
  intro g
  induction g with
  | zero =>
    intro fields props r out ns h hn k
    cases fields with
    | nil =>
      simp only [processUpdateFields, Option.some.injEq] at h
      simp only [variantIncludedNames, Option.some.injEq] at hn
      subst h; subst hn
      simp
    | cons fd rest => simp [processUpdateFields] at h
  | succ g ih =>
    intro fields props r out ns h hn k
    cases fields with
    | nil =>
      simp only [processUpdateFields, Option.some.injEq] at h
      simp only [variantIncludedNames, Option.some.injEq] at hn
      subst h; subst hn
      simp
    | cons fd rest =>
      simp only [processUpdateFields] at h
      simp only [variantIncludedNames] at hn
      by_cases hexp : fd.exported = false
      · rw [if_pos hexp] at h hn
        exact ih rest props r out ns h hn k
      · rw [if_neg hexp] at h hn
        cases hemb : embeddedTarget fd with
        | some eid =>
          simp only [hemb] at h hn
          cases hin : processUpdateFields env c g (defOf env eid).fields props r with
          | none => simp [hin] at h
          | some mid =>
            simp only [hin] at h
            cases hn1 : variantIncludedNames env g (defOf env eid).fields with
            | none => simp [hn1] at hn
            | some ns1 =>
              simp only [hn1] at hn
              cases hn2 : variantIncludedNames env g rest with
              | none => simp [hn2] at hn
              | some ns2 =>
                simp only [hn2, Option.some.injEq] at hn
                subst hn
                have h1 := ih (defOf env eid).fields props r mid ns1 hin hn1 k
                have h2 := ih rest mid.1 mid.2 out ns2 (by
                  obtain ⟨a, rr⟩ := mid
                  exact h) hn2 k
                rw [h2, h1, List.mem_append]
                tauto
        | none =>
          simp only [hemb] at h hn
          by_cases hsk : shouldSkipForCreate env fd = true
          · rw [if_pos hsk] at h hn
            exact ih rest props r out ns h hn k
          · rw [if_neg hsk] at h hn
            by_cases hsk2 : ((mergeTags fd.jsonTag fd.bindingTag fd.gormTag fd.docsTag).jsonSkip
                || (mergeTags fd.jsonTag fd.bindingTag fd.gormTag fd.docsTag).gormSkip
                || (mergeTags fd.jsonTag fd.bindingTag fd.gormTag fd.docsTag).hidden) = true
            · rw [if_pos hsk2] at h hn
              exact ih rest props r out ns h hn k
            · rw [if_neg hsk2] at h hn
              cases hf : fieldToSchemaWith c fd.ftype
                  (mergeTags fd.jsonTag fd.bindingTag fd.gormTag fd.docsTag) r with
              | none => simp [hf] at h
              | some fp =>
                obtain ⟨fs, r1⟩ := fp
                simp only [hf] at h
                cases hm : variantIncludedNames env g rest with
                | none => simp [hm] at hn
                | some ms =>
                  simp only [hm, Option.some.injEq] at hn
                  subst hn
                  have h2 := ih rest _ r1 out ms h hm k
                  rw [h2, mem_upsert_keys, List.mem_cons]
                  tauto

/-- A field schema fit for the Update variant: no read-only marking, and
none on its `allOf` members (the wrapped references) either. -/
def UpdateGood (s : SchemaObject) : Prop :=
  s.core.readOnly = false ∧ ∀ m ∈ s.core.allOf, m.core.readOnly = false

theorem fieldToSchemaWith_good
    (c : GoType → TypeRegistry → Option (SchemaObject × TypeRegistry))
    (hc : ∀ t r s r₁, c t r = some (s, r₁) →
      s.core.allOf = [] ∧ (s.core.ref ≠ "" → s.core.readOnly = false))
    (t : GoType) (tags : TagInfo) (r : TypeRegistry) (fs : SchemaObject) (r₁ : TypeRegistry)
    (h : fieldToSchemaWith c t tags r = some (fs, r₁)) :
    UpdateGood (if fs.core.ref = "" then SchemaObject.mk { fs.core with readOnly := false }
      else fs) := by
  unfold fieldToSchemaWith at h
  cases hcall : c t r with
  | none => simp [hcall] at h
  | some p =>
    obtain ⟨base, rb⟩ := p
    simp only [hcall] at h
    have hb := hc _ _ _ _ hcall
    split at h
    next hrefne =>
      split at h
      · have hfs : _ = fs := congrArg Prod.fst (Option.some.inj h)
        rw [← hfs]
        refine ⟨by rfl, ?_⟩
        intro m hm
        have hm' : m ∈ [base] := hm
        rw [List.mem_singleton] at hm'
        subst hm'
        exact hb.2 hrefne
      · have hfs : base = fs := congrArg Prod.fst (Option.some.inj h)
        subst hfs
        rw [if_neg (by simpa using hrefne)]
        exact ⟨hb.2 hrefne, fun m hm => absurd hm (by simp [hb.1])⟩
    next hrefeq =>
      have hfs : applyTagConstraints base tags = fs := congrArg Prod.fst (Option.some.inj h)
      have href : fs.core.ref = "" := by
        rw [← hfs, applyTagConstraints_ref]
        simpa using hrefeq
      rw [if_pos href]
      refine ⟨by rfl, ?_⟩
      intro m hm
      have hm' : m ∈ fs.core.allOf := hm
      rw [← hfs, applyTagConstraints_allOf, hb.1] at hm'
      exact absurd hm' (by simp)

theorem processUpdateFields_good (env : Env)
    (c : GoType → TypeRegistry → Option (SchemaObject × TypeRegistry))
    (hc : ∀ t r s r₁, c t r = some (s, r₁) →
      s.core.allOf = [] ∧ (s.core.ref ≠ "" → s.core.readOnly = false)) :
    ∀ (g : Nat) (fields : List FieldDef) (props : List (String × SchemaObject))
      (r : TypeRegistry) (out : List (String × SchemaObject) × TypeRegistry),
      processUpdateFields env c g fields props r = some out →
      (∀ p ∈ props, UpdateGood p.2) →
      ∀ p ∈ out.1, UpdateGood p.2 := by
  intro g
  induction g with
  | zero =>
    intro fields props r out h hprops
    cases fields with
    | nil =>
      simp only [processUpdateFields, Option.some.injEq] at h
      subst h
      exact hprops
    | cons fd rest => simp [processUpdateFields] at h
  | succ g ih =>
    intro fields props r out h hprops
    cases fields with
    | nil =>
      simp only [processUpdateFields, Option.some.injEq] at h
      subst h
      exact hprops
    | cons fd rest =>
      simp only [processUpdateFields] at h
      by_cases hexp : fd.exported = false
      · rw [if_pos hexp] at h
        exact ih rest props r out h hprops
      · rw [if_neg hexp] at h
        cases hemb : embeddedTarget fd with
        | some eid =>
          simp only [hemb] at h
          cases hin : processUpdateFields env c g (defOf env eid).fields props r with
          | none => simp [hin] at h
          | some mid =>
            simp only [hin] at h
            have hmid := ih (defOf env eid).fields props r mid hin hprops
            exact ih rest mid.1 mid.2 out (by obtain ⟨a, rr⟩ := mid; exact h) hmid
        | none =>
          simp only [hemb] at h
          by_cases hsk : shouldSkipForCreate env fd = true
          · rw [if_pos hsk] at h
            exact ih rest props r out h hprops
          · rw [if_neg hsk] at h
            by_cases hsk2 : ((mergeTags fd.jsonTag fd.bindingTag fd.gormTag fd.docsTag).jsonSkip
                || (mergeTags fd.jsonTag fd.bindingTag fd.gormTag fd.docsTag).gormSkip
                || (mergeTags fd.jsonTag fd.bindingTag fd.gormTag fd.docsTag).hidden) = true
            · rw [if_pos hsk2] at h
              exact ih rest props r out h hprops
            · rw [if_neg hsk2] at h
              cases hf : fieldToSchemaWith c fd.ftype
                  (mergeTags fd.jsonTag fd.bindingTag fd.gormTag fd.docsTag) r with
              | none => simp [hf] at h
              | some fp =>
                obtain ⟨fs, r1⟩ := fp
                simp only [hf] at h
                refine ih rest _ r1 out h ?_
                intro p hp
                rcases mem_upsert _ _ _ p hp with h1 | h1
                · rw [h1]
                  exact fieldToSchemaWith_good c hc _ _ _ _ _ hf
                · exact hprops p h1

/-- C7: the Update variant's required set is empty, its property set is
exactly the spec-side list of non-excluded fields, and no property schema
carries a read-only marking — nor does any `allOf` member wrapping a
nested object reference. -/
theorem c7_update_all_optional (env : Env) (f : Nat) (id : Nat) (r : TypeRegistry)
    (s : SchemaObject) (r₁ : TypeRegistry) (ns : List String)
    (hcomp : generateUpdateVariant env f id r = some (s, r₁))
    (hns : variantIncludedNames env f (defOf env id).fields = some ns) :
    s.core.required = []
    ∧ (∀ k, k ∈ s.core.properties.map Prod.fst ↔ k ∈ ns)
    ∧ (∀ p ∈ s.core.properties, p.2.core.readOnly = false
        ∧ ∀ m ∈ p.2.core.allOf, m.core.readOnly = false) := by
  unfold generateUpdateVariant at hcomp
  cases hwalk : processUpdateFields env (typeToSchema env f) f (defOf env id).fields [] r with
  | none => rw [hwalk] at hcomp; exact absurd hcomp (by simp)
  | some out =>
    obtain ⟨props, r₂⟩ := out
    rw [hwalk] at hcomp
    simp only [Option.some.injEq, Prod.mk.injEq] at hcomp
    have hc : ∀ t r s r₁, typeToSchema env f t r = some (s, r₁) →
        s.core.allOf = [] ∧ (s.core.ref ≠ "" → s.core.readOnly = false) :=
      fun t r s r₁ h => typeToSchema_tame env f t r s r₁ h
    refine ⟨by rw [← hcomp.1]; rfl, fun k => ?_, fun p hp => ?_⟩
    · have h := processUpdateFields_keys env (typeToSchema env f) f (defOf env id).fields
        [] r (props, r₂) ns hwalk hns k
      rw [← hcomp.1]
      simpa using h
    · have hgood := processUpdateFields_good env (typeToSchema env f) hc f
        (defOf env id).fields [] r (props, r₂) hwalk (by simp) p
      rw [← hcomp.1] at hp
      exact hgood hp

/-- The Update variant schema computed for the Scenario C/D entity. -/
def entityUpdate : SchemaObject :=
  match generateUpdateVariant entityEnv 3 0 newTypeRegistry with
  | some (s, _) => s
  | none => .mk {}

/-- The registry left by computing the Scenario D Update variant. -/
def entityUpdateReg : TypeRegistry :=
  match generateUpdateVariant entityEnv 3 0 newTypeRegistry with
  | some (_, r) => r
  | none => newTypeRegistry

/-- Witness for C7 at Scenario D: all non-excluded fields present, empty
required set, no read-only marking. -/
theorem c7_witness :
    entityUpdate.core.required = []
    ∧ "name" ∈ entityUpdate.core.properties.map Prod.fst
    ∧ (∀ p ∈ entityUpdate.core.properties, p.2.core.readOnly = false) := by
  have h := c7_update_all_optional entityEnv 3 0 newTypeRegistry entityUpdate
    entityUpdateReg ["name"] (by rfl) (by rfl)
  exact ⟨h.1, (h.2.1 "name").mpr (by simp), fun p hp => (h.2.2 p hp).1⟩

/-! ## Closedness of a type graph, and a measure for embedded descent -/

/-- Struct identities occurring in a type expression. -/
def typeIds : GoType → List Nat
  | .slice e => typeIds e
  | .arr e => typeIds e
  | .mapT v => typeIds v
  | .ptr t => typeIds t
  | .structT id => [id]
  | _ => []

/-- All struct identities in `t` are declared in `env`. -/
def typeClosedB (env : Env) (t : GoType) : Bool :=
  (typeIds t).all (· < env.length)

/-- All struct identities in all declared fields are declared in `env`. -/
def envClosedB (env : Env) : Bool :=
  env.all fun d => d.fields.all fun fd => typeClosedB env fd.ftype

/-- A strict measure for anonymous-embedding descent: each embedded struct
target is lower than its host.  Such a measure exists precisely when no
cycle of the type graph passes through anonymous embedded fields. -/
def embOkB (env : Env) (hs : List Nat) : Bool :=
  (List.range env.length).all fun i =>
    (defOf env i).fields.all fun fd =>
      match embeddedTarget fd with
      | some e => decide (hs.getD e 0 < hs.getD i 0)
      | none => true

theorem typeIds_stripPtr (t : GoType) : typeIds (stripPtr t) = typeIds t := by
  induction t <;> simp_all [stripPtr, typeIds]

theorem fieldsClosed_of_env (env : Env) (hc : envClosedB env = true) (id : Nat)
    (hid : id < env.length) (fd : FieldDef) (hfd : fd ∈ (defOf env id).fields) :
    typeClosedB env fd.ftype = true := by
  have hmem : defOf env id ∈ env := by
    unfold defOf
    rw [List.getD_eq_getElem env _ hid]
    exact List.getElem_mem hid
  exact List.all_eq_true.mp (List.all_eq_true.mp hc _ hmem) fd hfd

theorem embeddedTarget_lt_of_closed (env : Env) (fd : FieldDef) (e : Nat)
    (he : embeddedTarget fd = some e) (hc : typeClosedB env fd.ftype = true) :
    e < env.length := by
  unfold embeddedTarget at he
  split_ifs at he
  cases ht : stripPtr fd.ftype <;> rw [ht] at he <;> simp at he
  next id =>
    have hide : id = e := he.2
    subst hide
    have : id ∈ typeIds fd.ftype := by
      rw [← typeIds_stripPtr, ht]
      simp [typeIds]
    simpa using List.all_eq_true.mp hc _ this

theorem embOk_step (env : Env) (hs : List Nat) (hok : embOkB env hs = true)
    (i : Nat) (hi : i < env.length) (fd : FieldDef) (hfd : fd ∈ (defOf env i).fields)
    (e : Nat) (he : embeddedTarget fd = some e) :
    hs.getD e 0 < hs.getD i 0 := by
  have h1 := List.all_eq_true.mp hok i (List.mem_range.mpr hi)
  have h2 := List.all_eq_true.mp h1 fd hfd
  rw [he] at h2
  simpa using h2

/-! ## The count of unresolved struct identities -/

/-- The number of declared identities neither in progress nor registered
under their schema name; compilation strictly shrinks it when it enters a
new struct. -/
def unresolved (env : Env) (r : TypeRegistry) : Nat :=
  ((List.range env.length).filter
    (fun i => !(r.isSeen i || r.has (schemaName env (GoType.structT i))))).length

theorem filter_length_mono {α : Type} (p q : α → Bool)
    (h : ∀ a, q a = true → p a = true) :
    ∀ l : List α, (l.filter q).length ≤ (l.filter p).length := by
  intro l
  induction l with
  | nil => exact Nat.le_refl 0
  | cons a t ih =>
    rw [List.filter_cons, List.filter_cons]
    cases hq : q a
    · cases hp : p a
      · simpa using ih
      · simp only [if_pos rfl, List.length_cons]
        exact Nat.le_succ_of_le ih
    · rw [h a hq]
      simpa using Nat.succ_le_succ ih

theorem filter_length_lt {α : Type} [DecidableEq α] (p q : α → Bool) (a : α)
    (h : ∀ x, q x = true → p x = true) (hpa : p a = true) (hqa : q a = false) :
    ∀ l : List α, a ∈ l → (l.filter q).length < (l.filter p).length := by
  intro l hl
  induction l with
  | nil => exact absurd hl (List.not_mem_nil a)
  | cons b t ih =>
    rw [List.filter_cons, List.filter_cons]
    rcases List.mem_cons.mp hl with hb | hb
    · subst hb
      rw [hpa, hqa]
      simpa using Nat.lt_succ_of_le (filter_length_mono p q h t)
    · cases hq : q b
      · have h1 := ih hb
        cases hp : p b
        · simpa using h1
        · simp only [show ((false : Bool) = true) = False by simp, if_false,
            show ((true : Bool) = true) = True by simp, if_true, List.length_cons]
          exact Nat.lt_succ_of_lt h1
      · rw [h b hq]
        simpa using Nat.succ_lt_succ (ih hb)

theorem unresolved_le_of_evol (env : Env) (r r₁ : TypeRegistry)
    (h : RegEvolve r r₁) : unresolved env r₁ ≤ unresolved env r := by
  apply filter_length_mono
  intro i hi
  simp only [Bool.not_eq_true', Bool.or_eq_false_iff] at hi ⊢
  refine ⟨?_, ?_⟩
  · have h1 : r₁.isSeen i = false := hi.1
    rw [TypeRegistry.isSeen, ← h.1]
    exact h1
  · cases hv : r.has (schemaName env (GoType.structT i))
    · rfl
    · have h2 := h.2.1 _ hv
      exact absurd h2 (by simp [hi.2])

theorem unresolved_markSeen_lt (env : Env) (r : TypeRegistry) (id : Nat)
    (hid : id < env.length)
    (hhas : r.has (schemaName env (GoType.structT id)) = false)
    (hseen : r.isSeen id = false) :
    unresolved env (r.markSeen id) < unresolved env r := by
  have hcont : r.seen.contains id = false := by
    simpa [TypeRegistry.isSeen] using hseen
  have hmem : id ∉ r.seen := by simpa using hcont
  have hseenList : (r.markSeen id).seen = id :: r.seen := by
    simp [TypeRegistry.markSeen, hmem]
  have hiso : ∀ x, (r.markSeen id).isSeen x = (x == id || r.seen.contains x) := by
    intro x
    rw [TypeRegistry.isSeen, hseenList]
    rfl
  refine filter_length_lt _ _ id ?_ ?_ ?_ _ (List.mem_range.mpr hid)
  · intro x hx
    simp only [Bool.not_eq_true', Bool.or_eq_false_iff] at hx ⊢
    refine ⟨?_, hx.2⟩
    have h1 : (r.markSeen id).isSeen x = false := hx.1
    rw [hiso] at h1
    exact (Bool.or_eq_false_iff.mp h1).2
  · simp [hseen, hhas]
  · have : (r.markSeen id).isSeen id = true := by
      rw [hiso]
      simp
    simp [this]

/-! ## Fuel monotonicity: success at some fuel is success (with the same
result) at any larger fuel -/

theorem fieldToSchemaWith_mono
    (c c' : GoType → TypeRegistry → Option (SchemaObject × TypeRegistry))
    (hcc : ∀ t r out, c t r = some out → c' t r = some out)
    (t : GoType) (tags : TagInfo) (r : TypeRegistry)
    (out : SchemaObject × TypeRegistry)
    (h : fieldToSchemaWith c t tags r = some out) :
    fieldToSchemaWith c' t tags r = some out := by
  unfold fieldToSchemaWith at h ⊢
  cases hcall : c t r with
  | none => simp [hcall] at h
  | some p =>
    simp only [hcall] at h
    rw [hcc _ _ _ hcall]
    exact h

theorem processStructFields_mono (env : Env)
    (c c' : GoType → TypeRegistry → Option (SchemaObject × TypeRegistry))
    (hcc : ∀ t r out, c t r = some out → c' t r = some out) :
    ∀ (g g' : Nat), g ≤ g' →
      ∀ fields props req r out,
        processStructFields env c g fields props req r = some out →
        processStructFields env c' g' fields props req r = some out := by
  intro g
  induction g with
  | zero =>
    intro g' hg fields props req r out h
    cases fields with
    | nil =>
      simp only [processStructFields, Option.some.injEq] at h
      simp [processStructFields, h]
    | cons fd rest => simp [processStructFields] at h
  | succ g ih =>
    intro g' hg fields props req r out h
    cases fields with
    | nil =>
      simp only [processStructFields, Option.some.injEq] at h
      simp [processStructFields, h]
    | cons fd rest =>
      obtain ⟨g'', rfl⟩ : ∃ g'', g' = g'' + 1 := ⟨g' - 1, by omega⟩
      have hg2 : g ≤ g'' := by omega
      simp only [processStructFields] at h ⊢
      by_cases hexp : fd.exported = false
      · rw [if_pos hexp] at h ⊢
        exact ih g'' hg2 rest props req r out h
      · rw [if_neg hexp] at h ⊢
        cases hemb : embeddedTarget fd with
        | some eid =>
          simp only [hemb] at h ⊢
          cases hin : processStructFields env c g (defOf env eid).fields props req r with
          | none => simp [hin] at h
          | some mid =>
            obtain ⟨p1, q1, r1⟩ := mid
            simp only [hin] at h
            rw [ih g'' hg2 _ _ _ _ _ hin]
            exact ih g'' hg2 rest p1 q1 r1 out h
        | none =>
          simp only [hemb] at h ⊢
          by_cases hsk : ((mergeTags fd.jsonTag fd.bindingTag fd.gormTag fd.docsTag).jsonSkip
              || (mergeTags fd.jsonTag fd.bindingTag fd.gormTag fd.docsTag).gormSkip
              || (mergeTags fd.jsonTag fd.bindingTag fd.gormTag fd.docsTag).hidden) = true
          · rw [if_pos hsk] at h ⊢
            exact ih g'' hg2 rest props req r out h
          · rw [if_neg hsk] at h ⊢
            cases hf : fieldToSchemaWith c fd.ftype
                (mergeTags fd.jsonTag fd.bindingTag fd.gormTag fd.docsTag) r with
            | none => simp [hf] at h
            | some fp =>
              obtain ⟨fs, r1⟩ := fp
              simp only [hf] at h
              rw [fieldToSchemaWith_mono c c' hcc _ _ _ _ hf]
              exact ih g'' hg2 rest _ _ r1 out h

theorem structToSchemaAux_mono (env : Env)
    (c c' : GoType → TypeRegistry → Option (SchemaObject × TypeRegistry))
    (hcc : ∀ t r out, c t r = some out → c' t r = some out)
    (g g' : Nat) (hg : g ≤ g') (id : Nat) (r : TypeRegistry)
    (out : SchemaObject × TypeRegistry)
    (h : structToSchemaAux env c g id r = some out) :
    structToSchemaAux env c' g' id r = some out := by
  simp only [structToSchemaAux] at h ⊢
  by_cases hhas : r.has (schemaName env (GoType.structT id)) = true
  · rw [if_pos hhas] at h ⊢
    exact h
  · rw [if_neg hhas] at h ⊢
    by_cases hseen : r.isSeen id = true
    · rw [if_pos hseen] at h ⊢
      exact h
    · rw [if_neg hseen] at h ⊢
      cases hwalk : processStructFields env c g (defOf env id).fields [] [] (r.markSeen id) with
      | none => simp [hwalk] at h
      | some w =>
        obtain ⟨props, req, r₂⟩ := w
        simp only [hwalk] at h
        rw [processStructFields_mono env c c' hcc g g' hg _ _ _ _ _ hwalk]
        exact h

theorem typeToSchema_mono (env : Env) :
    ∀ (f g : Nat), f ≤ g → ∀ t r out,
      typeToSchema env f t r = some out → typeToSchema env g t r = some out := by
  intro f
  induction f with
  | zero => intro g hg t r out h; exact absurd h (by simp [typeToSchema])
  | succ f ih =>
    intro g hg t r out h
    obtain ⟨g', rfl⟩ : ∃ g', g = g' + 1 := ⟨g - 1, by omega⟩
    have hg2 : f ≤ g' := by omega
    rw [typeToSchema] at h ⊢
    cases ht : stripPtr t <;> rw [ht] at h
    case slice e =>
      simp only [specialTypeSchema] at h ⊢
      cases hrec : typeToSchema env f e r with
      | none => rw [hrec] at h; exact absurd h (by simp)
      | some p =>
        rw [hrec] at h
        rw [ih g' hg2 _ _ _ hrec]
        exact h
    case arr e =>
      simp only [specialTypeSchema] at h ⊢
      cases hrec : typeToSchema env f e r with
      | none => rw [hrec] at h; exact absurd h (by simp)
      | some p =>
        rw [hrec] at h
        rw [ih g' hg2 _ _ _ hrec]
        exact h
    case mapT v =>
      simp only [specialTypeSchema] at h ⊢
      cases hrec : typeToSchema env f v r with
      | none => rw [hrec] at h; exact absurd h (by simp)
      | some p =>
        rw [hrec] at h
        rw [ih g' hg2 _ _ _ hrec]
        exact h
    case structT id =>
      simp only [specialTypeSchema] at h ⊢
      exact structToSchemaAux_mono env _ _ (fun t r out hc => ih g' hg2 t r out hc)
        f g' hg2 id r out h
    all_goals exact h

/-! ## Existence of sufficient fuel (termination of the compiler) -/

theorem typeToSchema_succ_slice (env : Env) (f : Nat) (e : GoType) (r : TypeRegistry) :
    typeToSchema env (f + 1) (GoType.slice e) r
      = (match typeToSchema env f e r with
        | none => none
        | some (es, r1) =>
          if e = GoType.uint8T then
            some (.mk { type := "string", format := "byte" }, r1)
          else some (.mk { type := "array", items := some es }, r1)) := rfl

theorem typeToSchema_succ_arr (env : Env) (f : Nat) (e : GoType) (r : TypeRegistry) :
    typeToSchema env (f + 1) (GoType.arr e) r
      = (match typeToSchema env f e r with
        | none => none
        | some (es, r1) =>
          if e = GoType.uint8T then
            some (.mk { type := "string", format := "byte" }, r1)
          else some (.mk { type := "array", items := some es }, r1)) := rfl

theorem typeToSchema_succ_map (env : Env) (f : Nat) (v : GoType) (r : TypeRegistry) :
    typeToSchema env (f + 1) (GoType.mapT v) r
      = (match typeToSchema env f v r with
        | none => none
        | some (vs, r1) =>
          some (.mk { type := "object", additionalProperties := some vs }, r1)) := rfl

/-- Enough fuel exists for a field walk, given enough fuel for each field's
type (`IH`) and a strict height bound on anonymous-embedding descent. -/
theorem ex_walk (env : Env) (hs : List Nat)
    (hclosed : envClosedB env = true) (hok : embOkB env hs = true) (u : Nat)
    (IH : ∀ (t : GoType) (r' : TypeRegistry), typeClosedB env t = true →
      unresolved env r' ≤ u → ∃ f out, typeToSchema env f t r' = some out) :
    ∀ (b : Nat) (fields : List FieldDef) (props : List (String × SchemaObject))
      (req : List String) (r : TypeRegistry),
      (∀ fd ∈ fields, typeClosedB env fd.ftype = true) →
      (∀ fd ∈ fields, ∀ e, embeddedTarget fd = some e → hs.getD e 0 < b) →
      unresolved env r ≤ u →
      ∃ g f out,
        processStructFields env (typeToSchema env f) g fields props req r = some out := by
  intro b
  induction b using Nat.strong_induction_on with
  | _ b ihb =>
  intro fields
  induction fields with
  | nil =>
    intro props req r _ _ _
    exact ⟨0, 0, (props, req, r), rfl⟩
  | cons fd rest ihrest =>
    intro props req r hcl hbnd hu
    have hclR : ∀ fd' ∈ rest, typeClosedB env fd'.ftype = true :=
      fun fd' hf => hcl fd' (List.mem_cons_of_mem _ hf)
    have hbndR : ∀ fd' ∈ rest, ∀ e, embeddedTarget fd' = some e → hs.getD e 0 < b :=
      fun fd' hf => hbnd fd' (List.mem_cons_of_mem _ hf)
    by_cases hexp : fd.exported = false
    · obtain ⟨g, f, out, hw⟩ := ihrest props req r hclR hbndR hu
      refine ⟨g + 1, f, out, ?_⟩
      simp only [processStructFields]
      rw [if_pos hexp]
      exact hw
    · cases hemb : embeddedTarget fd with
      | some eid =>
        have hb' : hs.getD eid 0 < b := hbnd fd (List.mem_cons_self _ _) eid hemb
        have heidlt : eid < env.length :=
          embeddedTarget_lt_of_closed env fd eid hemb (hcl fd (List.mem_cons_self _ _))
        have hclE : ∀ fd' ∈ (defOf env eid).fields, typeClosedB env fd'.ftype = true :=
          fun fd' hf => fieldsClosed_of_env env hclosed eid heidlt fd' hf
        have hbndE : ∀ fd' ∈ (defOf env eid).fields, ∀ e,
            embeddedTarget fd' = some e → hs.getD e 0 < hs.getD eid 0 :=
          fun fd' hf e he => embOk_step env hs hok eid heidlt fd' hf e he
        obtain ⟨g1, f1, mid, hw1⟩ :=
          ihb (hs.getD eid 0) hb' (defOf env eid).fields props req r hclE hbndE hu
        obtain ⟨p1, q1, r1⟩ := mid
        have hev : RegEvolve r r1 :=
          processStructFields_evol env (typeToSchema env f1) (typeToSchema_evol env f1)
            g1 _ _ _ _ _ hw1
        have hu2 : unresolved env r1 ≤ u :=
          le_trans (unresolved_le_of_evol env _ _ hev) hu
        obtain ⟨g2, f2, out, hw2⟩ := ihrest p1 q1 r1 hclR hbndR hu2
        refine ⟨(max g1 g2) + 1, max f1 f2, out, ?_⟩
        simp only [processStructFields]
        rw [if_neg hexp]
        simp only [hemb]
        have hcc : ∀ t r o, typeToSchema env f1 t r = some o →
            typeToSchema env (max f1 f2) t r = some o :=
          fun t r o hh => typeToSchema_mono env f1 (max f1 f2) (le_max_left _ _) t r o hh
        have hw1' := processStructFields_mono env (typeToSchema env f1)
          (typeToSchema env (max f1 f2)) hcc g1 (max g1 g2) (le_max_left _ _) _ _ _ _ _ hw1
        rw [hw1']
        have hcc2 : ∀ t r o, typeToSchema env f2 t r = some o →
            typeToSchema env (max f1 f2) t r = some o :=
          fun t r o hh => typeToSchema_mono env f2 (max f1 f2) (le_max_right _ _) t r o hh
        exact processStructFields_mono env (typeToSchema env f2)
          (typeToSchema env (max f1 f2)) hcc2 g2 (max g1 g2) (le_max_right _ _) _ _ _ _ _ hw2
      | none =>
        by_cases hsk : ((mergeTags fd.jsonTag fd.bindingTag fd.gormTag fd.docsTag).jsonSkip
            || (mergeTags fd.jsonTag fd.bindingTag fd.gormTag fd.docsTag).gormSkip
            || (mergeTags fd.jsonTag fd.bindingTag fd.gormTag fd.docsTag).hidden) = true
        · obtain ⟨g, f, out, hw⟩ := ihrest props req r hclR hbndR hu
          refine ⟨g + 1, f, out, ?_⟩
          simp only [processStructFields]
          rw [if_neg hexp]
          simp only [hemb]
          rw [if_pos hsk]
          exact hw
        · obtain ⟨f1, out1, hc1⟩ := IH fd.ftype r (hcl fd (List.mem_cons_self _ _)) hu
          obtain ⟨bs, r1⟩ := out1
          have hfs : ∃ fsv, fieldToSchemaWith (typeToSchema env f1) fd.ftype
              (mergeTags fd.jsonTag fd.bindingTag fd.gormTag fd.docsTag) r
                = some (fsv, r1) := by
            simp only [fieldToSchemaWith, hc1]
            split
            · split
              · exact ⟨_, rfl⟩
              · exact ⟨_, rfl⟩
            · exact ⟨_, rfl⟩
          obtain ⟨fsv, hfs⟩ := hfs
          have hev : RegEvolve r r1 := typeToSchema_evol env f1 _ _ _ _ hc1
          have hu2 : unresolved env r1 ≤ u :=
            le_trans (unresolved_le_of_evol env _ _ hev) hu
          obtain ⟨g2, f2, out, hw2⟩ := ihrest
            (upsert props
              (if (mergeTags fd.jsonTag fd.bindingTag fd.gormTag fd.docsTag).jsonName = ""
                then fd.name
                else (mergeTags fd.jsonTag fd.bindingTag fd.gormTag fd.docsTag).jsonName) fsv)
            (if (mergeTags fd.jsonTag fd.bindingTag fd.gormTag fd.docsTag).required = true
              then req ++ [if (mergeTags fd.jsonTag fd.bindingTag fd.gormTag fd.docsTag).jsonName = ""
                then fd.name
                else (mergeTags fd.jsonTag fd.bindingTag fd.gormTag fd.docsTag).jsonName]
              else req)
            r1 hclR hbndR hu2
          refine ⟨g2 + 1, max f1 f2, out, ?_⟩
          simp only [processStructFields]
          rw [if_neg hexp]
          simp only [hemb]
          rw [if_neg hsk]
          have hcc : ∀ t r o, typeToSchema env f1 t r = some o →
              typeToSchema env (max f1 f2) t r = some o :=
            fun t r o hh => typeToSchema_mono env f1 (max f1 f2) (le_max_left _ _) t r o hh
          rw [fieldToSchemaWith_mono _ _ hcc _ _ _ _ hfs]
          have hcc2 : ∀ t r o, typeToSchema env f2 t r = some o →
              typeToSchema env (max f1 f2) t r = some o :=
            fun t r o hh => typeToSchema_mono env f2 (max f1 f2) (le_max_right _ _) t r o hh
          exact processStructFields_mono env (typeToSchema env f2)
            (typeToSchema env (max f1 f2)) hcc2 g2 g2 (Nat.le_refl g2) _ _ _ _ _ hw2

/-- Enough fuel exists to compile any closed type, provided the
anonymous-embedding relation admits a strict height measure. -/
theorem ex_type (env : Env) (hs : List Nat)
    (hclosed : envClosedB env = true) (hok : embOkB env hs = true) :
    ∀ (u : Nat) (t : GoType) (r : TypeRegistry), typeClosedB env t = true →
      unresolved env r ≤ u → ∃ f out, typeToSchema env f t r = some out := by
  intro u
  induction u using Nat.strong_induction_on with
  | _ u ihu =>
  intro t
  induction t with
  | slice e ihe =>
    intro r hcl hu
    obtain ⟨f, ⟨es, r1⟩, hrec⟩ := ihe r hcl hu
    by_cases he : e = GoType.uint8T
    · exact ⟨f + 1, _, by rw [typeToSchema_succ_slice, hrec]; dsimp only; rw [if_pos he]⟩
    · exact ⟨f + 1, _, by rw [typeToSchema_succ_slice, hrec]; dsimp only; rw [if_neg he]⟩
  | arr e ihe =>
    intro r hcl hu
    obtain ⟨f, ⟨es, r1⟩, hrec⟩ := ihe r hcl hu
    by_cases he : e = GoType.uint8T
    · exact ⟨f + 1, _, by rw [typeToSchema_succ_arr, hrec]; dsimp only; rw [if_pos he]⟩
    · exact ⟨f + 1, _, by rw [typeToSchema_succ_arr, hrec]; dsimp only; rw [if_neg he]⟩
  | mapT v ihv =>
    intro r hcl hu
    obtain ⟨f, ⟨vs, r1⟩, hrec⟩ := ihv r hcl hu
    exact ⟨f + 1, _, by rw [typeToSchema_succ_map, hrec]⟩
  | ptr t iht =>
    intro r hcl hu
    obtain ⟨f, out, hrec⟩ := iht r hcl hu
    exact ⟨f, out, by rw [typeToSchema_ptr]; exact hrec⟩
  | structT id =>
    intro r hcl hu
    have hid : id < env.length := by simpa [typeClosedB, typeIds] using hcl
    by_cases hhas : r.has (schemaName env (GoType.structT id)) = true
    · exact ⟨1, _, by
        rw [typeToSchema_succ_struct]
        exact structToSchemaAux_of_has env _ 0 id r hhas⟩
    · by_cases hseen : r.isSeen id = true
      · exact ⟨1, _, by
          rw [typeToSchema_succ_struct]
          exact structToSchemaAux_of_seen env _ 0 id r hseen⟩
      · have hlt : unresolved env (r.markSeen id) < unresolved env r :=
          unresolved_markSeen_lt env r id hid (by simpa using hhas) (by simpa using hseen)
        have hu' : unresolved env (r.markSeen id) < u := lt_of_lt_of_le hlt hu
        have IH : ∀ (t : GoType) (r' : TypeRegistry), typeClosedB env t = true →
            unresolved env r' ≤ unresolved env (r.markSeen id) →
            ∃ f out, typeToSchema env f t r' = some out :=
          fun t r' a b => ihu _ hu' t r' a b
        have hfieldsC : ∀ fd ∈ (defOf env id).fields, typeClosedB env fd.ftype = true :=
          fun fd hf => fieldsClosed_of_env env hclosed id hid fd hf
        have hbound : ∀ fd ∈ (defOf env id).fields, ∀ e,
            embeddedTarget fd = some e → hs.getD e 0 < hs.getD id 0 + 1 :=
          fun fd hf e he => Nat.lt_succ_of_lt (embOk_step env hs hok id hid fd hf e he)
        obtain ⟨g, f, ⟨props, req, r₂⟩, hw⟩ := ex_walk env hs hclosed hok
          (unresolved env (r.markSeen id)) IH (hs.getD id 0 + 1) (defOf env id).fields
          [] [] (r.markSeen id) hfieldsC hbound (Nat.le_refl _)
        refine ⟨(max f g) + 1,
          (SchemaRef (schemaName env (GoType.structT id)),
            ((r₂.register (schemaName env (GoType.structT id))
              (.mk { type := "object", properties := props, required := req })).unmarkSeen
                id)), ?_⟩
        rw [typeToSchema_succ_struct]
        simp only [structToSchema, structToSchemaAux]
        rw [if_neg hhas, if_neg hseen]
        have hcc : ∀ t r o, typeToSchema env f t r = some o →
            typeToSchema env (max f g) t r = some o :=
          fun t r o hh => typeToSchema_mono env f (max f g) (le_max_left _ _) t r o hh
        rw [processStructFields_mono env (typeToSchema env f) (typeToSchema env (max f g))
          hcc g (max f g) (le_max_right _ _) _ _ _ _ _ hw]
  | boolT => intro r _ _; exact ⟨1, _, rfl⟩
  | intT => intro r _ _; exact ⟨1, _, rfl⟩
  | int8T => intro r _ _; exact ⟨1, _, rfl⟩
  | int16T => intro r _ _; exact ⟨1, _, rfl⟩
  | int32T => intro r _ _; exact ⟨1, _, rfl⟩
  | int64T => intro r _ _; exact ⟨1, _, rfl⟩
  | uintT => intro r _ _; exact ⟨1, _, rfl⟩
  | uint8T => intro r _ _; exact ⟨1, _, rfl⟩
  | uint16T => intro r _ _; exact ⟨1, _, rfl⟩
  | uint32T => intro r _ _; exact ⟨1, _, rfl⟩
  | uint64T => intro r _ _; exact ⟨1, _, rfl⟩
  | float32T => intro r _ _; exact ⟨1, _, rfl⟩
  | float64T => intro r _ _; exact ⟨1, _, rfl⟩
  | stringT => intro r _ _; exact ⟨1, _, rfl⟩
  | interfaceT => intro r _ _; exact ⟨1, _, rfl⟩
  | timeT => intro r _ _; exact ⟨1, _, rfl⟩
  | textMarshalerT => intro r _ _; exact ⟨1, _, rfl⟩
  | otherT => intro r _ _; exact ⟨1, _, rfl⟩

/-! ## C1: termination on cyclic type graphs -/

/-- C1 (amended): on any closed type graph whose anonymous-embedding
relation admits a strict height measure (no cycle through embedded
fields), compiling any type from any registry state terminates — some fuel
yields a result; and whenever an identity already in the in-progress
(seen) set is re-encountered, `structToSchema` returns the `$ref` to that
identity's schema name immediately, at any fuel, without touching the
registry — which is what breaks cycles through ordinary fields. -/
theorem c1_cycle_termination (env : Env) (hs : List Nat) (t : GoType) (r : TypeRegistry)
    (hclosed : envClosedB env = true)
    (hok : embOkB env hs = true)
    (ht : typeClosedB env t = true) :
    (∃ f out, typeToSchema env f t r = some out)
    ∧ (∀ g id r', TypeRegistry.isSeen r' id = true →
        structToSchema env g id r'
          = some (SchemaRef (schemaName env (GoType.structT id)), r')) := by
  refine ⟨ex_type env hs hclosed hok (unresolved env r) t r ht (Nat.le_refl _), ?_⟩
  intro g id r' hseen
  exact structToSchemaAux_of_seen env _ g id r' hseen

/-- Witness for C1 (amended) on the cyclic `Node` graph (`Children :
[]Node`), which the seen set resolves. -/
theorem c1_witness :
    envClosedB nodeEnv = true ∧ embOkB nodeEnv [0] = true
    ∧ typeClosedB nodeEnv (GoType.structT 0) = true
    ∧ (∃ f out, typeToSchema nodeEnv f (GoType.structT 0) newTypeRegistry = some out)
    ∧ structToSchema nodeEnv 0 0 { schemas := [], seen := [0] }
        = some (SchemaRef "Node", { schemas := [], seen := [0] }) := by
  have h := c1_cycle_termination nodeEnv [0] (GoType.structT 0) newTypeRegistry
    (by decide) (by decide) (by decide)
  exact ⟨by decide, by decide, by decide, h.1, h.2 0 0 _ (by decide)⟩

/-- The fields of the Go-legal type `T` in `type T struct { *T; X int }`:
an anonymous embedded pointer to `T` itself, plus a payload field. -/
def embedCycleFields : List FieldDef :=
  [⟨"T", true, true, .ptr (.structT 0), "", "", "", ""⟩,
   ⟨"X", true, false, .intT, "x", "", "", ""⟩]

/-- A one-type environment whose only struct embeds a pointer to itself
anonymously — a direct self-reference that Go's compiler accepts. -/
def embedCycleEnv : Env := [⟨"T", "main", embedCycleFields⟩]

/-- The field walk of `T` never finishes at any fuel: the anonymous
embedded descent re-enters the same field list without consulting the seen
set. -/
theorem embedCycle_walk_none
    (c : GoType → TypeRegistry → Option (SchemaObject × TypeRegistry)) :
    ∀ (g : Nat) (props : List (String × SchemaObject)) (req : List String)
      (r : TypeRegistry),
      processStructFields embedCycleEnv c g embedCycleFields props req r = none := by
  intro g
  induction g with
  | zero => intro props req r; rfl
  | succ g ih =>
    intro props req r
    rw [show processStructFields embedCycleEnv c (g + 1) embedCycleFields props req r
        = (match processStructFields embedCycleEnv c g embedCycleFields props req r with
          | none => none
          | some (p1, q1, r1) =>
            processStructFields embedCycleEnv c g
              [⟨"X", true, false, .intT, "x", "", "", ""⟩] p1 q1 r1)
      from rfl, ih props req r]

/-- Counterexample for C1 as stated: the claim promises termination for
every type graph with a direct or indirect self-reference, but on the
Go-legal `type T struct { *T; X int }` the compilation never succeeds at
any fuel — the recursion into anonymous embedded fields bypasses the seen
set (in Go, unbounded recursion and a stack overflow). -/
theorem c1_counterexample :
    ¬ ∃ f out, typeToSchema embedCycleEnv f (GoType.structT 0) newTypeRegistry
      = some out := by
  rintro ⟨f, out, h⟩
  cases f with
  | zero => exact absurd h (by simp [typeToSchema])
  | succ f =>
    rw [typeToSchema_succ_struct] at h
    have hnone : structToSchema embedCycleEnv f 0 newTypeRegistry = none := by
      show structToSchemaAux embedCycleEnv (typeToSchema embedCycleEnv f) f 0
        newTypeRegistry = none
      simp only [structToSchemaAux]
      rw [if_neg (by decide), if_neg (by decide),
        show (defOf embedCycleEnv 0).fields = embedCycleFields from rfl,
        embedCycle_walk_none (typeToSchema embedCycleEnv f) f [] []
          (newTypeRegistry.markSeen 0)]
    rw [hnone] at h
    exact absurd h (by simp)

end GinDocs
